import Mathlib

/-!
# BinaryXML tokenizer (`binxml.h`)

A shallow embedding of the streaming reader of `binxml.h`
(`BxDocumentLoadFromMemory`, `BxDocumentReadString`, `BxDocumentNextAttr`,
`BxDocumentNext`) and theorems about it.

Modelling conventions.

* Memory behind `content` is a total map from offsets to bytes; every access
  `content[i]` made by the code is recorded, in order, in a list of offsets, so
  that "the code reads offset `i`" is a statement about that list.
* `head` and `length` are `size_t`.  Every `head++` of the source directly
  follows an access `content[head]` at the same `head`, so `head + 1` cannot
  wrap while the accesses stay inside an object; `head` is a natural number.
* `current` has type plain `char`, whose signedness is fixed by the ABI and not
  by the source.  It is the parameter `charSigned` of the functions below.
* `malloc` can fail; its outcome is the parameter `mallocOk`.
* The out-parameters `type[0]` and `data[0]` are returned as options: `none`
  means the call did not store to them.
-/

namespace BinaryXML

/-! ## Constants of the anonymous `enum` -/

abbrev BX_STATUS_SUCCESS : Int := 0
abbrev BX_STATUS_FAILURE : Int := 1
abbrev BX_STATUS_BAD_DOCUMENT : Int := 2

abbrev BX_CONTEXT_NONE : Int := 0
abbrev BX_CONTEXT_OUTERMOST : Int := 1
abbrev BX_CONTEXT_ATTRIBS : Int := 2

abbrev BX_TYPE_COMMENT : Int := 0
abbrev BX_TYPE_TAG : Int := 1
abbrev BX_TYPE_END_TAG : Int := 2
abbrev BX_TYPE_TEXT : Int := 3
abbrev BX_TYPE_EOF : Int := 0xff
abbrev BX_TYPE_ATTRIB_END : Int := 0x100
abbrev BX_TYPE_ATTRIB : Int := 0x101

/-! ## Data model -/

/-- One byte of memory. -/
abbrev Byte := Fin 256

/-- The `struct BxDocument`: declared length, the memory `content` points to
(indexed by offset), the cursor `head` and the `context`. -/
structure BxDocument where
  length : Nat
  content : Nat → Byte
  head : Nat
  context : Int

/-- The values stored through `data[0]`: `NULL`, a pointer `&content[offset]`
to a string inside the buffer, or a pointer to a fresh `BxAttrib` whose `key`
and `value` are `&content[key]` and `&content[value]`. -/
inductive BxData where
  | null : BxData
  | string (offset : Nat) : BxData
  | attrib (key value : Nat) : BxData
  deriving DecidableEq, Repr

/-- The value of a byte read through an lvalue of type plain `char`, after the
integer promotion applied by `switch` and by `!=`: `0 .. 255` when plain
`char` is unsigned, `-128 .. 127` when it is signed. -/
def charValue (charSigned : Bool) (b : Byte) : Int :=
  if charSigned = true ∧ 128 ≤ b.val then (b.val : Int) - 256 else (b.val : Int)

/-- The result of `BxDocumentReadString`: the returned pointer (as an offset
into `content`), the document after the call, and the offsets read. -/
structure BxString where
  string : Nat
  doc : BxDocument
  reads : List Nat

/-- The result of `BxDocumentNext` / `BxDocumentNextAttr`: the returned status,
what was stored to `type[0]` and `data[0]` (if anything), the document after
the call, and the offsets of `content` read by the call, in order. -/
structure BxOut where
  status : Int
  type : Option Int
  data : Option BxData
  doc : BxDocument
  reads : List Nat

/-! ## The functions -/

/-- The function `BxDocumentLoadFromMemory`: `memset` to zero, then store
`length` and `content`.  Returns the status and the document. -/
def BxDocumentLoadFromMemory (length : Nat) (content : Nat → Byte) : Int × BxDocument :=
  (BX_STATUS_SUCCESS, { length := length, content := content, head := 0, context := 0 })

/-- The loop `while ((content[head] != '\0') && (head < length)) head++;` of
`BxDocumentReadString`.  Returns the value of `head` when the loop exits and the
offsets read by the successive evaluations of the condition (the left operand
of `&&` is evaluated first, at every evaluation). -/
def BxDocumentReadString_loop (charSigned : Bool) (length : Nat) (content : Nat → Byte)
    (head : Nat) : Nat × List Nat :=
  if charValue charSigned (content head) ≠ 0 ∧ head < length then
    let r := BxDocumentReadString_loop charSigned length content (head + 1)
    (r.1, head :: r.2)
  else
    (head, [head])
termination_by length - head
decreasing_by omega

/-- The function `BxDocumentReadString`. -/
def BxDocumentReadString (charSigned : Bool) (this : BxDocument) : BxString :=
  let string := this.head
  let r := BxDocumentReadString_loop charSigned this.length this.content this.head
  { string := string, doc := { this with head := r.1 + 1 }, reads := r.2 }

/-- The function `BxDocumentNextAttr`. -/
def BxDocumentNextAttr (charSigned mallocOk : Bool) (this : BxDocument) : BxOut :=
  let current := charValue charSigned (this.content this.head)
  let this1 : BxDocument := { this with head := this.head + 1 }
  if current = 0x00 then
    { status := BX_STATUS_SUCCESS, type := some BX_TYPE_ATTRIB_END, data := some BxData.null,
      doc := { this1 with context := BX_CONTEXT_OUTERMOST }, reads := [this.head] }
  else if current = 0x01 then
    if mallocOk = false then
      { status := BX_STATUS_FAILURE, type := some BX_TYPE_ATTRIB, data := none,
        doc := this1, reads := [this.head] }
    else
      let key := BxDocumentReadString charSigned this1
      let value := BxDocumentReadString charSigned key.doc
      { status := BX_STATUS_SUCCESS, type := some BX_TYPE_ATTRIB,
        data := some (BxData.attrib key.string value.string),
        doc := value.doc, reads := this.head :: (key.reads ++ value.reads) }
  else
    { status := BX_STATUS_BAD_DOCUMENT, type := none, data := none,
      doc := this1, reads := [this.head] }

/-- The part of `BxDocumentNext` from `char current = content[head++]` on. -/
def BxDocumentNext_switch (charSigned : Bool) (this : BxDocument) : BxOut :=
  let current := charValue charSigned (this.content this.head)
  let this1 : BxDocument := { this with head := this.head + 1 }
  if current = BX_TYPE_COMMENT then
    let s := BxDocumentReadString charSigned this1
    { status := BX_STATUS_SUCCESS, type := some BX_TYPE_COMMENT,
      data := some (BxData.string s.string), doc := s.doc, reads := this.head :: s.reads }
  else if current = BX_TYPE_TAG then
    let s := BxDocumentReadString charSigned this1
    { status := BX_STATUS_SUCCESS, type := some BX_TYPE_TAG,
      data := some (BxData.string s.string),
      doc := { s.doc with context := BX_CONTEXT_ATTRIBS }, reads := this.head :: s.reads }
  else if current = BX_TYPE_END_TAG then
    let s := BxDocumentReadString charSigned this1
    { status := BX_STATUS_SUCCESS, type := some BX_TYPE_END_TAG,
      data := some (BxData.string s.string), doc := s.doc, reads := this.head :: s.reads }
  else if current = BX_TYPE_TEXT then
    let s := BxDocumentReadString charSigned this1
    { status := BX_STATUS_SUCCESS, type := some BX_TYPE_TEXT,
      data := some (BxData.string s.string), doc := s.doc, reads := this.head :: s.reads }
  else if current = BX_TYPE_EOF then
    { status := BX_STATUS_SUCCESS, type := some BX_TYPE_EOF, data := some BxData.null,
      doc := this1, reads := [this.head] }
  else
    { status := BX_STATUS_BAD_DOCUMENT, type := none, data := none,
      doc := this1, reads := [this.head] }

/-- The function `BxDocumentNext`. -/
def BxDocumentNext (charSigned mallocOk : Bool) (this : BxDocument) : BxOut :=
  if this.context = BX_CONTEXT_ATTRIBS then
    BxDocumentNextAttr charSigned mallocOk this
  else if this.context = BX_CONTEXT_NONE then
    if this.head = 0 then
      BxDocumentNext_switch charSigned { this with context := BX_CONTEXT_OUTERMOST }
    else
      { status := BX_STATUS_FAILURE, type := none, data := none, doc := this, reads := [] }
  else
    BxDocumentNext_switch charSigned this

/-- Memory holding the bytes of `buf` at offsets `0 .. buf.length - 1` and the
byte `pad` everywhere else. -/
def memOf (buf : List Byte) (pad : Byte) : Nat → Byte :=
  fun i => buf.getD i pad

/-- The bytes of the NUL-terminated string at offset `off`, as a consumer of a
returned pointer reads them: up to the first NUL, looking at `fuel` offsets at
most. -/
def cStringAux (content : Nat → Byte) : Nat → Nat → List Byte
  | 0, _ => []
  | fuel + 1, off =>
    if content off = 0 then [] else content off :: cStringAux content fuel (off + 1)

/-- The string view denoted by the pointer `&content[off]` in a buffer of
declared length `limit` (terminating NUL excluded). -/
def cString (content : Nat → Byte) (off limit : Nat) : List Byte :=
  cStringAux content (limit - off) off

/-- The session is decoded with the Outermost grammar: `context` is
`BX_CONTEXT_OUTERMOST`, or the session is freshly loaded (`BX_CONTEXT_NONE`
with `head = 0`). -/
def OutermostMode (doc : BxDocument) : Prop :=
  doc.context = BX_CONTEXT_OUTERMOST ∨ (doc.context = BX_CONTEXT_NONE ∧ doc.head = 0)

instance (doc : BxDocument) : Decidable (OutermostMode doc) := by
  unfold OutermostMode; infer_instance

/-- The session of the attribute record `0x01 "k" 0x00 "v" 0x00`, in Attributes
mode at offset 0. -/
def attribRecordDoc : BxDocument :=
  { length := 5, content := memOf [1, 107, 0, 118, 0] 0, head := 0,
    context := BX_CONTEXT_ATTRIBS }

/-- The session of the buffer `0x03 "h" 0x00 0xFF`, in Outermost mode with the
cursor on the final `0xFF`. -/
def atEofDoc : BxDocument :=
  { length := 4, content := memOf [3, 104, 0, 255] 0, head := 3,
    context := BX_CONTEXT_OUTERMOST }

/-- The session of the buffer `0x02 "k" 0x00`, in Attributes mode at offset 0:
an Outermost tag byte met while attributes are expected. -/
def endTagInAttribsDoc : BxDocument :=
  { length := 3, content := memOf [2, 107, 0] 0, head := 0, context := BX_CONTEXT_ATTRIBS }

/-- The freshly loaded session of the buffer `0xFF 0x03 "h" 0x00`. -/
def eofThenTextDoc : BxDocument :=
  (BxDocumentLoadFromMemory 4 (memOf [255, 3, 104, 0] 0)).2

/-- The freshly loaded session of the buffer `0x7F 0x03 "h" 0x00 0xFF`. -/
def badThenTextDoc : BxDocument :=
  (BxDocumentLoadFromMemory 5 (memOf [127, 3, 104, 0, 255] 0)).2

/-- A session whose context is `BX_CONTEXT_NONE` although the cursor is at 2,
over the buffer `0x03 "h" 0x00 0xFF`. -/
def resumedDoc : BxDocument :=
  { length := 4, content := memOf [3, 104, 0, 255] 0, head := 2, context := BX_CONTEXT_NONE }

/-- The freshly loaded session of the truncated buffer `0x03 "hi"` of declared
length 3; the byte after the buffer is `pad`. -/
def truncatedDoc (pad : Byte) : BxDocument :=
  (BxDocumentLoadFromMemory 3 (memOf [3, 104, 105] pad)).2

/-- The freshly loaded session of the buffer `0xFF 0x7F`. -/
def eofThenJunkDoc : BxDocument :=
  (BxDocumentLoadFromMemory 2 (memOf [255, 127] 0)).2

/-- The freshly loaded session of the buffer `0x7F 0x7F`. -/
def badThenBadDoc : BxDocument :=
  (BxDocumentLoadFromMemory 2 (memOf [127, 127] 0)).2

/-! ## Wire format and token sequences (specification side)

The repository has no encoder.  The definitions of this section follow the
wire-format description of the specification: a document is `Token* 0xFF`,
strings are NUL-terminated, and an open tag is followed by its attribute block
(`0x01 key 0x00 value 0x00` records closed by `0x00`). -/

/-- A top-level token of a document, an open tag carrying its attributes. -/
inductive Token where
  | Comment (text : List Byte) : Token
  | OpenTag (name : List Byte) (attrs : List (List Byte × List Byte)) : Token
  | EndTag (name : List Byte) : Token
  | Text (text : List Byte) : Token

/-- What one `BxDocumentNext` call yields, with the string views read out. -/
inductive Event where
  | Comment (text : List Byte) : Event
  | OpenTag (name : List Byte) : Event
  | EndTag (name : List Byte) : Event
  | Text (text : List Byte) : Event
  | Eof : Event
  | AttributeEnd : Event
  | Attribute (key value : List Byte) : Event
  deriving DecidableEq

/-- Wire encoding of an attribute block: one `0x01 key NUL value NUL` record per
attribute, then the byte `0x00`. -/
def encodeAttribs : List (List Byte × List Byte) → List Byte
  | [] => [0]
  | kv :: rest => 1 :: (kv.1 ++ [0] ++ (kv.2 ++ [0] ++ encodeAttribs rest))

/-- Wire encoding of one token: tag byte, string, NUL, and for an open tag its
attribute block. -/
def encodeToken : Token → List Byte
  | Token.Comment s => 0 :: (s ++ [0])
  | Token.OpenTag s attrs => 1 :: (s ++ [0] ++ encodeAttribs attrs)
  | Token.EndTag s => 2 :: (s ++ [0])
  | Token.Text s => 3 :: (s ++ [0])

/-- Wire encoding of a sequence of tokens (without the final `0xFF`). -/
def encodeTokens : List Token → List Byte
  | [] => []
  | t :: ts => encodeToken t ++ encodeTokens ts

/-- Wire encoding of a document: the tokens followed by the byte `0xFF`. -/
def encodeDocument (toks : List Token) : List Byte :=
  encodeTokens toks ++ [255]

/-- The events of an attribute block: one `Attribute` per attribute, then
`AttributeEnd`. -/
def attribEvents : List (List Byte × List Byte) → List Event
  | [] => [Event.AttributeEnd]
  | kv :: rest => Event.Attribute kv.1 kv.2 :: attribEvents rest

/-- The events of one token. -/
def tokenEvents : Token → List Event
  | Token.Comment s => [Event.Comment s]
  | Token.OpenTag s attrs => Event.OpenTag s :: attribEvents attrs
  | Token.EndTag s => [Event.EndTag s]
  | Token.Text s => [Event.Text s]

/-- The events of a sequence of tokens (without the final `Eof`). -/
def tokensEvents : List Token → List Event
  | [] => []
  | t :: ts => tokenEvents t ++ tokensEvents ts

/-- No string of the attribute list contains a NUL byte. -/
def AttribsNulFree : List (List Byte × List Byte) → Prop
  | [] => True
  | kv :: rest => (∀ b ∈ kv.1, b ≠ 0) ∧ (∀ b ∈ kv.2, b ≠ 0) ∧ AttribsNulFree rest

/-- No string of the token contains a NUL byte. -/
def Token.NulFree : Token → Prop
  | Token.Comment s => ∀ b ∈ s, b ≠ 0
  | Token.OpenTag s attrs => (∀ b ∈ s, b ≠ 0) ∧ AttribsNulFree attrs
  | Token.EndTag s => ∀ b ∈ s, b ≠ 0
  | Token.Text s => ∀ b ∈ s, b ≠ 0

/-- Deciding `AttribsNulFree`. -/
def decAttribsNulFree : (attrs : List (List Byte × List Byte)) → Decidable (AttribsNulFree attrs)
  | [] => isTrue trivial
  | _ :: rest =>
    @instDecidableAnd _ _ _ (@instDecidableAnd _ _ _ (decAttribsNulFree rest))

instance : DecidablePred AttribsNulFree := decAttribsNulFree

instance : DecidablePred Token.NulFree := fun t =>
  match t with
  | Token.Comment s => inferInstanceAs (Decidable (∀ b ∈ s, b ≠ 0))
  | Token.OpenTag s attrs => inferInstanceAs (Decidable ((∀ b ∈ s, b ≠ 0) ∧ AttribsNulFree attrs))
  | Token.EndTag s => inferInstanceAs (Decidable (∀ b ∈ s, b ≠ 0))
  | Token.Text s => inferInstanceAs (Decidable (∀ b ∈ s, b ≠ 0))

/-- The event a caller reads out of the outputs of a call: the stored type
selects the token, and each stored pointer is read as a NUL-terminated string
of the buffer.  `none` when no type or no data was stored, or when they do not
fit together. -/
def BxOut.event (r : BxOut) : Option Event :=
  match r.type, r.data with
  | some t, some (BxData.string off) =>
    if t = BX_TYPE_COMMENT then some (Event.Comment (cString r.doc.content off r.doc.length))
    else if t = BX_TYPE_TAG then some (Event.OpenTag (cString r.doc.content off r.doc.length))
    else if t = BX_TYPE_END_TAG then some (Event.EndTag (cString r.doc.content off r.doc.length))
    else if t = BX_TYPE_TEXT then some (Event.Text (cString r.doc.content off r.doc.length))
    else none
  | some t, some BxData.null =>
    if t = BX_TYPE_EOF then some Event.Eof
    else if t = BX_TYPE_ATTRIB_END then some Event.AttributeEnd
    else none
  | some t, some (BxData.attrib key value) =>
    if t = BX_TYPE_ATTRIB then
      some (Event.Attribute (cString r.doc.content key r.doc.length)
        (cString r.doc.content value r.doc.length))
    else none
  | _, _ => none

/-- The results of `n` successive `BxDocumentNext` calls on a session. -/
def BxDocumentNext_repeat (charSigned mallocOk : Bool) : Nat → BxDocument → List BxOut
  | 0, _ => []
  | n + 1, doc =>
    BxDocumentNext charSigned mallocOk doc ::
      BxDocumentNext_repeat charSigned mallocOk n (BxDocumentNext charSigned mallocOk doc).doc

/-- The session after `n` successive `BxDocumentNext` calls. -/
def BxDocumentNext_iterate (charSigned mallocOk : Bool) : Nat → BxDocument → BxDocument
  | 0, doc => doc
  | n + 1, doc =>
    BxDocumentNext_iterate charSigned mallocOk n (BxDocumentNext charSigned mallocOk doc).doc

/-- The memory `content` holds the bytes `bs` from offset `p` on. -/
def MemHolds (content : Nat → Byte) : Nat → List Byte → Prop
  | _, [] => True
  | p, b :: bs => content p = b ∧ MemHolds content (p + 1) bs

/-- Successive calls from `doc` succeed and yield the events `evs` in order;
the session after them is `doc2`. -/
def Decodes (charSigned mallocOk : Bool) : BxDocument → List Event → BxDocument → Prop
  | doc, [], doc2 => doc2 = doc
  | doc, e :: evs, doc2 =>
    (BxDocumentNext charSigned mallocOk doc).status = BX_STATUS_SUCCESS ∧
    (BxDocumentNext charSigned mallocOk doc).event = some e ∧
    Decodes charSigned mallocOk (BxDocumentNext charSigned mallocOk doc).doc evs doc2

/-- The spec's document `0x01 "a" 0x00 0x01 "k" 0x00 "v" 0x00 0x00 0x03 "hi" 0x00 0xFF`
as tokens. -/
def specTokens : List Token :=
  [Token.OpenTag [97] [([107], [118])], Token.Text [104, 105]]

/-- The spec's document `0x01 "x" 0x00 0x00 0xFF` as tokens. -/
def emptyAttribTokens : List Token :=
  [Token.OpenTag [120] []]

/-- The freshly loaded session of the wire encoding of `toks`, of declared
length the length of the encoding; memory past the buffer holds `pad`. -/
def loadEncoded (pad : Byte) (toks : List Token) : BxDocument :=
  (BxDocumentLoadFromMemory (encodeDocument toks).length (memOf (encodeDocument toks) pad)).2

/-- The scan of `BxDocumentReadString` started at offset `s` stops at offset `e`:
every offset in `[s, e)` holds a non-NUL byte and is below `length`, and `e`
holds a NUL or is not below `length`. -/
def ScanStops (content : Nat → Byte) (length s e : Nat) : Prop :=
  s ≤ e ∧ (∀ i, s ≤ i → i < e → content i ≠ 0 ∧ i < length) ∧ (content e = 0 ∨ length ≤ e)

/-- The freshly loaded session of the one-byte buffer `0x7F`; the memory past
the buffer holds `0x7F` as well. -/
def oneBadByteDoc : BxDocument :=
  (BxDocumentLoadFromMemory 1 (memOf [127] 127)).2

/-- The freshly loaded session of the buffer `0x03 "hi" 0x00 0xFF`. -/
def textDoc : BxDocument :=
  (BxDocumentLoadFromMemory 5 (memOf [3, 104, 105, 0, 255] 0)).2

/-- The freshly loaded session of the buffer `0x01 "x" 0x00`: an open tag as the
first token. -/
def openTagDoc : BxDocument :=
  (BxDocumentLoadFromMemory 3 (memOf [1, 120, 0] 0)).2

/-- The session of the truncated buffer `0x03 "hi"` of declared length 3 with
the cursor on the string, at offset 1; the byte after the buffer is `pad`. -/
def truncatedStringDoc (pad : Byte) : BxDocument :=
  { length := 3, content := memOf [3, 104, 105] pad, head := 1,
    context := BX_CONTEXT_OUTERMOST }

/-- The results of successive `BxDocumentNext` calls on a session, one call per
element of the list, made with that allocation outcome. -/
def BxDocumentNext_calls (charSigned : Bool) : List Bool → BxDocument → List BxOut
  | [], _ => []
  | m :: ms, doc =>
    BxDocumentNext charSigned m doc ::
      BxDocumentNext_calls charSigned ms (BxDocumentNext charSigned m doc).doc

/-- The cursor at the start of each of the successive calls. -/
def BxDocumentNext_cursors (charSigned : Bool) : List Bool → BxDocument → List Nat
  | [], _ => []
  | m :: ms, doc =>
    doc.head :: BxDocumentNext_cursors charSigned ms (BxDocumentNext charSigned m doc).doc

/-- The token type a call returned: the stored type when the status is
`BX_STATUS_SUCCESS`, nothing otherwise. -/
def BxOut.token (r : BxOut) : Option Int :=
  if r.status = BX_STATUS_SUCCESS then r.type else none

/-- The types of the tokens returned by the successful calls, in order. -/
def tokenTypes (outs : List BxOut) : List Int :=
  outs.filterMap BxOut.token

/-- The token is Attribute or AttributeEnd. -/
def AttribToken (t : Int) : Prop :=
  t = BX_TYPE_ATTRIB ∨ t = BX_TYPE_ATTRIB_END

/-- The previous token, if any, is OpenTag or Attribute. -/
def OpensAttribs (prev : Option Int) : Prop :=
  prev = some BX_TYPE_TAG ∨ prev = some BX_TYPE_ATTRIB

/-- Every token of the list is Attribute or AttributeEnd exactly when the token
before it (`prev` for the first one) is OpenTag or Attribute. -/
def ModeTrace : Option Int → List Int → Prop
  | _, [] => True
  | prev, t :: ts => (AttribToken t ↔ OpensAttribs prev) ∧ ModeTrace (some t) ts

/-- The freshly loaded session of the buffer `0x01 "x" 0x00 0x00`: an open tag
without attributes. -/
def emptyTagDoc : BxDocument :=
  (BxDocumentLoadFromMemory 4 (memOf [1, 120, 0, 0] 0)).2

/-- The freshly loaded session of the buffer `0x03 "hi" 0x00 0x7F`: the buffer of
`textDoc` with another byte after the first token. -/
def textThenJunkDoc : BxDocument :=
  (BxDocumentLoadFromMemory 5 (memOf [3, 104, 105, 0, 127] 0)).2

/-! ## Basic facts -/

theorem charValue_eq_zero_iff (cs : Bool) (b : Byte) : charValue cs b = 0 ↔ b = 0 := by
  unfold charValue
  constructor
  · intro h
    apply Fin.ext
    split at h <;> simp at * <;> omega
  · rintro rfl
    simp

theorem byte_cast_eq_iff (b c : Byte) : ((b.val : Int) = ((c.val : Nat) : Int)) ↔ b = c := by
  constructor
  · intro h
    exact Fin.ext (by exact_mod_cast h)
  · rintro rfl
    rfl

theorem charValue_of_lt (cs : Bool) (b : Byte) (h : b.val < 128) :
    charValue cs b = (b.val : Int) := by
  unfold charValue
  rw [if_neg]
  omega

theorem charValue_unsigned (b : Byte) : charValue false b = (b.val : Int) := by
  simp [charValue]

theorem charValue_signed_lt (b : Byte) : charValue true b < 128 := by
  unfold charValue
  by_cases h : 128 ≤ b.val
  · rw [if_pos ⟨rfl, h⟩]
    omega
  · rw [if_neg (fun hh => h hh.2)]
    omega

theorem charValue_eq_iff_of_lt (cs : Bool) (b : Byte) (k : Nat) (hk : k < 128) :
    charValue cs b = (k : Int) ↔ b.val = k := by
  unfold charValue
  split <;> omega

/-- The loop of `BxDocumentReadString` on a run of `n` non-NUL bytes inside the
buffer that is followed by a NUL or by the end of the buffer: it stops at
`head + n` after reading the offsets `head .. head + n`. -/
theorem BxDocumentReadString_loop_run (cs : Bool) (length : Nat) (content : Nat → Byte) :
    ∀ (n head : Nat), (∀ i, i < n → content (head + i) ≠ 0) → head + n ≤ length →
      (content (head + n) = 0 ∨ head + n = length) →
      BxDocumentReadString_loop cs length content head = (head + n, List.range' head (n + 1)) := by
  intro n
  induction n with
  | zero =>
    intro head _ _ hend
    rw [BxDocumentReadString_loop]
    have : ¬ (charValue cs (content head) ≠ 0 ∧ head < length) := by
      rintro ⟨h1, h2⟩
      rcases hend with h | h
      · exact h1 ((charValue_eq_zero_iff cs _).2 (by simpa using h))
      · simp at h; omega
    simp [this]
  | succ n ih =>
    intro head hrun hle hend
    rw [BxDocumentReadString_loop]
    have h0 : charValue cs (content head) ≠ 0 := by
      intro h
      exact hrun 0 (by omega) (by simpa using (charValue_eq_zero_iff cs _).1 h)
    have hlt : head < length := by omega
    have hrec := ih (head + 1) (fun i hi => by
        have := hrun (i + 1) (by omega)
        rwa [show head + 1 + i = head + (i + 1) by omega]) (by omega)
        (by rwa [show head + 1 + n = head + (n + 1) by omega])
    simp only [h0, hlt, ne_eq, not_false_eq_true, and_self, if_true, hrec]
    rw [show head + 1 + n = head + (n + 1) by omega]
    rfl

/-- The function `BxDocumentReadString` on a NUL-terminated string of `n` bytes
that lies inside the buffer. -/
theorem BxDocumentReadString_run (cs : Bool) (doc : BxDocument) (n : Nat)
    (hrun : ∀ i, i < n → doc.content (doc.head + i) ≠ 0)
    (hle : doc.head + n ≤ doc.length)
    (hend : doc.content (doc.head + n) = 0 ∨ doc.head + n = doc.length) :
    (BxDocumentReadString cs doc).string = doc.head ∧
    (BxDocumentReadString cs doc).doc = { doc with head := doc.head + n + 1 } ∧
    (BxDocumentReadString cs doc).reads = List.range' doc.head (n + 1) := by
  simp [BxDocumentReadString, BxDocumentReadString_loop_run cs doc.length doc.content n doc.head
    hrun hle hend]

/-- The string view at `off` when `n` non-NUL bytes are followed by a NUL inside
the buffer: exactly those `n` bytes. -/
theorem cString_run (content : Nat → Byte) (limit : Nat) :
    ∀ (n off : Nat), (∀ i, i < n → content (off + i) ≠ 0) → content (off + n) = 0 →
      off + n < limit →
      cString content off limit = (List.range' off n).map content := by
  intro n
  induction n with
  | zero =>
    intro off _ h0 hlt
    unfold cString
    obtain ⟨f, hf⟩ : ∃ f, limit - off = f + 1 := ⟨limit - off - 1, by omega⟩
    rw [hf, cStringAux]
    simp at h0
    simp [h0]
  | succ n ih =>
    intro off hrun h0 hlt
    unfold cString
    obtain ⟨f, hf⟩ : ∃ f, limit - off = f + 1 := ⟨limit - off - 1, by omega⟩
    rw [hf, cStringAux]
    have hne : content off ≠ 0 := by simpa using hrun 0 (by omega)
    have hrec := ih (off + 1) (fun i hi => by
        have := hrun (i + 1) (by omega)
        rwa [show off + 1 + i = off + (i + 1) by omega])
        (by rwa [show off + 1 + n = off + (n + 1) by omega]) (by omega)
    unfold cString at hrec
    rw [show limit - (off + 1) = f by omega] at hrec
    simp [hne, hrec, List.range'_succ]

/-- In Outermost mode (or freshly loaded) `BxDocumentNext` is the `switch` run on
the document whose context is `BX_CONTEXT_OUTERMOST`. -/
theorem BxDocumentNext_of_outermost (cs m : Bool) (doc : BxDocument) (h : OutermostMode doc) :
    BxDocumentNext cs m doc =
      BxDocumentNext_switch cs { doc with context := BX_CONTEXT_OUTERMOST } := by
  obtain ⟨len, content, head, context⟩ := doc
  rcases h with h | ⟨h, h0⟩
  · simp only at h
    subst h
    simp [BxDocumentNext]
  · simp only at h h0
    subst h
    subst h0
    simp [BxDocumentNext]

/-- In Attributes mode `BxDocumentNext` is `BxDocumentNextAttr`. -/
theorem BxDocumentNext_of_attribs (cs m : Bool) (doc : BxDocument)
    (h : doc.context = BX_CONTEXT_ATTRIBS) :
    BxDocumentNext cs m doc = BxDocumentNextAttr cs m doc := by
  simp [BxDocumentNext, h]

/-- The `switch` of `BxDocumentNext` on one of the four string-bearing tag bytes,
followed by a NUL-terminated string of `n` bytes inside the buffer. -/
theorem BxDocumentNext_switch_string (cs : Bool) (doc : BxDocument) (n : Nat)
    (htag : (doc.content doc.head).val ≤ 3)
    (hrun : ∀ i, i < n → doc.content (doc.head + 1 + i) ≠ 0)
    (hle : doc.head + 1 + n ≤ doc.length)
    (hend : doc.content (doc.head + 1 + n) = 0 ∨ doc.head + 1 + n = doc.length) :
    (BxDocumentNext_switch cs doc).status = BX_STATUS_SUCCESS ∧
    (BxDocumentNext_switch cs doc).type = some ((doc.content doc.head).val : Int) ∧
    (BxDocumentNext_switch cs doc).data = some (BxData.string (doc.head + 1)) ∧
    (BxDocumentNext_switch cs doc).doc.head = doc.head + n + 2 ∧
    (BxDocumentNext_switch cs doc).doc.context =
      (if (doc.content doc.head).val = 1 then BX_CONTEXT_ATTRIBS else doc.context) ∧
    (BxDocumentNext_switch cs doc).doc.length = doc.length ∧
    (BxDocumentNext_switch cs doc).doc.content = doc.content ∧
    (BxDocumentNext_switch cs doc).reads = List.range' doc.head (n + 2) := by
  have hcv := charValue_of_lt cs (doc.content doc.head) (by omega)
  obtain ⟨hs, hd, hr⟩ := BxDocumentReadString_run cs { doc with head := doc.head + 1 } n
    hrun hle hend
  simp only at hs hd hr
  have h4 : (doc.content doc.head).val = 0 ∨ (doc.content doc.head).val = 1 ∨
      (doc.content doc.head).val = 2 ∨ (doc.content doc.head).val = 3 := by omega
  have hrange : doc.head :: List.range' (doc.head + 1) (n + 1) = List.range' doc.head (n + 2) := by
    simp [List.range'_succ]
  rcases h4 with h | h | h | h <;>
    simp [BxDocumentNext_switch, hcv, h, hs, hd, hr, hrange] <;> omega

/-- The status of the `switch` of `BxDocumentNext`: success exactly on the five
case labels. -/
theorem BxDocumentNext_switch_status (cs : Bool) (doc : BxDocument) :
    (BxDocumentNext_switch cs doc).status =
      if charValue cs (doc.content doc.head) = 0 ∨ charValue cs (doc.content doc.head) = 1 ∨
          charValue cs (doc.content doc.head) = 2 ∨ charValue cs (doc.content doc.head) = 3 ∨
          charValue cs (doc.content doc.head) = 255
      then BX_STATUS_SUCCESS else BX_STATUS_BAD_DOCUMENT := by
  unfold BxDocumentNext_switch
  simp only
  split_ifs <;> simp_all

/-- The `default` case of the `switch` of `BxDocumentNext`: nothing is stored to
`type[0]` and `data[0]`, and only the tag byte has been read and consumed. -/
theorem BxDocumentNext_switch_bad (cs : Bool) (doc : BxDocument)
    (h : (BxDocumentNext_switch cs doc).status = BX_STATUS_BAD_DOCUMENT) :
    (BxDocumentNext_switch cs doc).type = none ∧ (BxDocumentNext_switch cs doc).data = none ∧
    (BxDocumentNext_switch cs doc).doc = { doc with head := doc.head + 1 } ∧
    (BxDocumentNext_switch cs doc).reads = [doc.head] := by
  unfold BxDocumentNext_switch at h ⊢
  simp only at h ⊢
  split_ifs at h ⊢ <;> simp_all

/-- The status of `BxDocumentNextAttr`. -/
theorem BxDocumentNextAttr_status (cs m : Bool) (doc : BxDocument) :
    (BxDocumentNextAttr cs m doc).status =
      if doc.content doc.head = 0 then BX_STATUS_SUCCESS
      else if doc.content doc.head = 1 then
        (if m = false then BX_STATUS_FAILURE else BX_STATUS_SUCCESS)
      else BX_STATUS_BAD_DOCUMENT := by
  have h0 := charValue_eq_zero_iff cs (doc.content doc.head)
  have h1 : charValue cs (doc.content doc.head) = 1 ↔ doc.content doc.head = 1 := by
    rw [show (1 : Int) = ((1 : Nat) : Int) from rfl, charValue_eq_iff_of_lt cs _ 1 (by omega)]
    constructor
    · intro h; exact Fin.ext h
    · intro h; rw [h]; rfl
  unfold BxDocumentNextAttr
  simp only [h0, h1]
  split_ifs <;> rfl

/-- The `default` case of `BxDocumentNextAttr`. -/
theorem BxDocumentNextAttr_bad (cs m : Bool) (doc : BxDocument)
    (h : (BxDocumentNextAttr cs m doc).status = BX_STATUS_BAD_DOCUMENT) :
    (BxDocumentNextAttr cs m doc).type = none ∧ (BxDocumentNextAttr cs m doc).data = none ∧
    (BxDocumentNextAttr cs m doc).doc = { doc with head := doc.head + 1 } ∧
    (BxDocumentNextAttr cs m doc).reads = [doc.head] := by
  unfold BxDocumentNextAttr at h ⊢
  simp only at h ⊢
  split_ifs at h ⊢ <;> simp_all

/-- The type stored by the `switch` of `BxDocumentNext`. -/
theorem BxDocumentNext_switch_type (cs : Bool) (doc : BxDocument) :
    (BxDocumentNext_switch cs doc).type =
      if charValue cs (doc.content doc.head) = 0 then some BX_TYPE_COMMENT
      else if charValue cs (doc.content doc.head) = 1 then some BX_TYPE_TAG
      else if charValue cs (doc.content doc.head) = 2 then some BX_TYPE_END_TAG
      else if charValue cs (doc.content doc.head) = 3 then some BX_TYPE_TEXT
      else if charValue cs (doc.content doc.head) = 255 then some BX_TYPE_EOF
      else none := by
  unfold BxDocumentNext_switch
  simp only
  split_ifs <;> rfl

/-- The `case BX_TYPE_EOF` of the `switch` of `BxDocumentNext`. -/
theorem BxDocumentNext_switch_eof (cs : Bool) (doc : BxDocument)
    (h : charValue cs (doc.content doc.head) = 255) :
    BxDocumentNext_switch cs doc =
      { status := BX_STATUS_SUCCESS, type := some BX_TYPE_EOF, data := some BxData.null,
        doc := { doc with head := doc.head + 1 }, reads := [doc.head] } := by
  unfold BxDocumentNext_switch
  simp [h]

/-- The type stored by `BxDocumentNextAttr`, if any, is `BX_TYPE_ATTRIB_END` or
`BX_TYPE_ATTRIB`. -/
theorem BxDocumentNextAttr_type (cs m : Bool) (doc : BxDocument) :
    (BxDocumentNextAttr cs m doc).type = none ∨
    (BxDocumentNextAttr cs m doc).type = some BX_TYPE_ATTRIB_END ∨
    (BxDocumentNextAttr cs m doc).type = some BX_TYPE_ATTRIB := by
  unfold BxDocumentNextAttr
  simp only
  split_ifs <;> simp

/-- A call that stores the type `BX_TYPE_EOF` ran the `case BX_TYPE_EOF` of the
`switch`: plain `char` is unsigned, the byte at the cursor is `0xFF`, and the
document after the call is the document before it with the cursor advanced by
one and a context that is neither Attributes nor None. -/
theorem eof_returned (cs m : Bool) (doc : BxDocument)
    (ht : (BxDocumentNext cs m doc).type = some BX_TYPE_EOF) :
    cs = false ∧ ∃ ctx : Int, ctx ≠ BX_CONTEXT_ATTRIBS ∧ ctx ≠ BX_CONTEXT_NONE ∧
      (ctx = doc.context ∨ (ctx = BX_CONTEXT_OUTERMOST ∧ doc.context = BX_CONTEXT_NONE)) ∧
      BxDocumentNext cs m doc =
        { status := BX_STATUS_SUCCESS, type := some BX_TYPE_EOF, data := some BxData.null,
          doc := { doc with head := doc.head + 1, context := ctx }, reads := [doc.head] } := by
  have hsw : ∀ d : BxDocument, (BxDocumentNext_switch cs d).type = some BX_TYPE_EOF →
      cs = false ∧ charValue cs (d.content d.head) = 255 := by
    intro d h
    rw [BxDocumentNext_switch_type] at h
    have h255 : charValue cs (d.content d.head) = 255 := by
      split_ifs at h with h0 h1 h2 h3 h255
      all_goals first
        | exact h255
        | (exfalso; revert h; decide)
    refine ⟨?_, h255⟩
    cases cs
    · rfl
    · have := charValue_signed_lt (d.content d.head)
      rw [h255] at this
      exact absurd this (by decide)
  by_cases hA : doc.context = BX_CONTEXT_ATTRIBS
  · exfalso
    rw [BxDocumentNext_of_attribs cs m doc hA] at ht
    rcases BxDocumentNextAttr_type cs m doc with h | h | h <;> rw [h] at ht <;>
      revert ht <;> decide
  · by_cases hN : doc.context = BX_CONTEXT_NONE
    · by_cases h0 : doc.head = 0
      · have hE : BxDocumentNext cs m doc =
            BxDocumentNext_switch cs { doc with context := BX_CONTEXT_OUTERMOST } := by
          simp [BxDocumentNext, hN, h0]
        rw [hE] at ht ⊢
        obtain ⟨hcs, h255⟩ := hsw _ ht
        refine ⟨hcs, BX_CONTEXT_OUTERMOST, by decide, by decide, Or.inr ⟨rfl, hN⟩, ?_⟩
        rw [BxDocumentNext_switch_eof cs _ h255]
      · exfalso
        have hE : BxDocumentNext cs m doc =
            { status := BX_STATUS_FAILURE, type := none, data := none, doc := doc,
              reads := [] } := by
          simp [BxDocumentNext, hN, h0]
        rw [hE] at ht
        simp at ht
    · have hE : BxDocumentNext cs m doc = BxDocumentNext_switch cs doc := by
        simp [BxDocumentNext, hA, hN]
      rw [hE] at ht ⊢
      obtain ⟨hcs, h255⟩ := hsw _ ht
      refine ⟨hcs, doc.context, hA, hN, Or.inl rfl, ?_⟩
      rw [BxDocumentNext_switch_eof cs _ h255]

/-- A call that returns `BX_STATUS_BAD_DOCUMENT` ran a `default` case: it stored
neither type nor data, read only the byte at the cursor, and the document after
the call is the document before it with the cursor advanced by one and the
context the byte was decoded under (Attributes stays Attributes, None at cursor
0 has become Outermost, any other context is unchanged). -/
theorem bad_document_returned (cs m : Bool) (doc : BxDocument)
    (hb : (BxDocumentNext cs m doc).status = BX_STATUS_BAD_DOCUMENT) :
    ∃ ctx : Int,
      ((doc.context = BX_CONTEXT_ATTRIBS ∧ ctx = BX_CONTEXT_ATTRIBS) ∨
       (doc.context = BX_CONTEXT_NONE ∧ doc.head = 0 ∧ ctx = BX_CONTEXT_OUTERMOST) ∨
       (doc.context ≠ BX_CONTEXT_ATTRIBS ∧ doc.context ≠ BX_CONTEXT_NONE ∧ ctx = doc.context)) ∧
      BxDocumentNext cs m doc =
        { status := BX_STATUS_BAD_DOCUMENT, type := none, data := none,
          doc := { doc with head := doc.head + 1, context := ctx }, reads := [doc.head] } := by
  have hsw : ∀ d : BxDocument, (BxDocumentNext_switch cs d).status = BX_STATUS_BAD_DOCUMENT →
      BxDocumentNext_switch cs d =
        { status := BX_STATUS_BAD_DOCUMENT, type := none, data := none,
          doc := { d with head := d.head + 1 }, reads := [d.head] } := by
    intro d h
    obtain ⟨h1, h2, h3, h4⟩ := BxDocumentNext_switch_bad cs d h
    cases hr : BxDocumentNext_switch cs d with
    | mk st ty da dc rs =>
      rw [hr] at h h1 h2 h3 h4
      simp only at h h1 h2 h3 h4
      rw [h, h1, h2, h3, h4]
  by_cases hA : doc.context = BX_CONTEXT_ATTRIBS
  · rw [BxDocumentNext_of_attribs cs m doc hA] at hb ⊢
    obtain ⟨h1, h2, h3, h4⟩ := BxDocumentNextAttr_bad cs m doc hb
    refine ⟨BX_CONTEXT_ATTRIBS, Or.inl ⟨hA, rfl⟩, ?_⟩
    cases hr : BxDocumentNextAttr cs m doc with
    | mk st ty da dc rs =>
      rw [hr] at hb h1 h2 h3 h4
      simp only at hb h1 h2 h3 h4
      rw [hb, h1, h2, h3, h4, hA]
  · by_cases hN : doc.context = BX_CONTEXT_NONE
    · by_cases h0 : doc.head = 0
      · have hE : BxDocumentNext cs m doc =
            BxDocumentNext_switch cs { doc with context := BX_CONTEXT_OUTERMOST } := by
          simp [BxDocumentNext, hN, h0]
        rw [hE] at hb ⊢
        exact ⟨BX_CONTEXT_OUTERMOST, Or.inr (Or.inl ⟨hN, h0, rfl⟩), hsw _ hb⟩
      · exfalso
        have hE : BxDocumentNext cs m doc =
            { status := BX_STATUS_FAILURE, type := none, data := none, doc := doc,
              reads := [] } := by
          simp [BxDocumentNext, hN, h0]
        rw [hE] at hb
        simp only at hb
        exact absurd hb (by decide)
    · have hE : BxDocumentNext cs m doc = BxDocumentNext_switch cs doc := by
        simp [BxDocumentNext, hA, hN]
      rw [hE] at hb ⊢
      exact ⟨doc.context, Or.inr (Or.inr ⟨hA, hN, rfl⟩), hsw _ hb⟩

/-- The context after the `switch` of `BxDocumentNext` is the context before it,
or `BX_CONTEXT_ATTRIBS`. -/
theorem BxDocumentNext_switch_context (cs : Bool) (doc : BxDocument) :
    (BxDocumentNext_switch cs doc).doc.context = doc.context ∨
    (BxDocumentNext_switch cs doc).doc.context = BX_CONTEXT_ATTRIBS := by
  unfold BxDocumentNext_switch BxDocumentReadString
  simp only
  split_ifs <;> simp

/-- End-of-document byte where plain `char` is unsigned: in Outermost mode (or
freshly loaded) on the byte `0xFF`, `BxDocumentNext` returns `BX_STATUS_SUCCESS`
with type `BX_TYPE_EOF` and `NULL` data, advances the cursor by one and leaves
the mode Outermost. -/
theorem eof_byte_unsigned_char (mallocOk : Bool) (doc : BxDocument)
    (hmode : OutermostMode doc) (hb : doc.content doc.head = 255) :
    (BxDocumentNext false mallocOk doc).status = BX_STATUS_SUCCESS ∧
    (BxDocumentNext false mallocOk doc).type = some BX_TYPE_EOF ∧
    (BxDocumentNext false mallocOk doc).data = some BxData.null ∧
    (BxDocumentNext false mallocOk doc).doc.head = doc.head + 1 ∧
    (BxDocumentNext false mallocOk doc).doc.context = BX_CONTEXT_OUTERMOST ∧
    (BxDocumentNext false mallocOk doc).reads = [doc.head] := by
  rw [BxDocumentNext_of_outermost false mallocOk doc hmode]
  simp +decide [BxDocumentNext_switch, charValue_unsigned, hb]

/-- Malformed-byte rejection in Outermost mode where plain `char` is unsigned:
`BX_STATUS_BAD_DOCUMENT` is returned exactly for the bytes other than
`0x00, 0x01, 0x02, 0x03, 0xFF`, and then no type or data is stored. -/
theorem malformed_outermost_unsigned_char (mallocOk : Bool) (doc : BxDocument)
    (hmode : OutermostMode doc) :
    ((BxDocumentNext false mallocOk doc).status = BX_STATUS_BAD_DOCUMENT ↔
      ¬ (doc.content doc.head = 0 ∨ doc.content doc.head = 1 ∨ doc.content doc.head = 2 ∨
         doc.content doc.head = 3 ∨ doc.content doc.head = 255)) ∧
    ((BxDocumentNext false mallocOk doc).status = BX_STATUS_BAD_DOCUMENT →
      (BxDocumentNext false mallocOk doc).type = none ∧
      (BxDocumentNext false mallocOk doc).data = none) := by
  rw [BxDocumentNext_of_outermost false mallocOk doc hmode]
  constructor
  · rw [BxDocumentNext_switch_status]
    simp only [charValue_unsigned]
    have e0 : ((doc.content doc.head).val : Int) = 0 ↔ doc.content doc.head = 0 :=
      byte_cast_eq_iff _ 0
    have e1 : ((doc.content doc.head).val : Int) = 1 ↔ doc.content doc.head = 1 :=
      byte_cast_eq_iff _ 1
    have e2 : ((doc.content doc.head).val : Int) = 2 ↔ doc.content doc.head = 2 :=
      byte_cast_eq_iff _ 2
    have e3 : ((doc.content doc.head).val : Int) = 3 ↔ doc.content doc.head = 3 :=
      byte_cast_eq_iff _ 3
    have e255 : ((doc.content doc.head).val : Int) = 255 ↔ doc.content doc.head = 255 :=
      byte_cast_eq_iff _ 255
    simp only [e0, e1, e2, e3, e255]
    split_ifs with h
    · simp only [show (BX_STATUS_SUCCESS = BX_STATUS_BAD_DOCUMENT) = False from by decide,
        false_iff, not_not]
      exact h
    · simp only [true_iff]
      exact h
  · intro h
    obtain ⟨h1, h2, -⟩ := BxDocumentNext_switch_bad false _ h
    exact ⟨h1, h2⟩

/-! ## Decoding an encoded document -/

theorem memHolds_append (content : Nat → Byte) :
    ∀ (a b : List Byte) (p : Nat),
      MemHolds content p (a ++ b) ↔ MemHolds content p a ∧ MemHolds content (p + a.length) b := by
  intro a
  induction a with
  | nil => intro b p; simp [MemHolds]
  | cons x xs ih =>
    intro b p
    have h := ih b (p + 1)
    rw [show p + 1 + xs.length = p + (x :: xs).length by simp; omega] at h
    show (content p = x ∧ MemHolds content (p + 1) (xs ++ b)) ↔
      (content p = x ∧ MemHolds content (p + 1) xs) ∧ MemHolds content (p + (x :: xs).length) b
    rw [h]
    tauto

theorem memHolds_memOf (pad : Byte) :
    ∀ (bs pre : List Byte), MemHolds (memOf (pre ++ bs) pad) pre.length bs := by
  intro bs
  induction bs with
  | nil => intro pre; trivial
  | cons b bs ih =>
    intro pre
    refine ⟨?_, ?_⟩
    · show (pre ++ b :: bs).getD pre.length pad = b
      rw [List.getD_eq_getElem?_getD, List.getElem?_append_right (Nat.le_refl _)]
      simp
    · have := ih (pre ++ [b])
      simpa using this

theorem memHolds_get (content : Nat → Byte) :
    ∀ (bs : List Byte) (p i : Nat) (hi : i < bs.length), MemHolds content p bs →
      content (p + i) = bs.get ⟨i, hi⟩ := by
  intro bs
  induction bs with
  | nil => intro p i hi; simp at hi
  | cons b bs ih =>
    intro p i hi h
    cases i with
    | zero => exact h.1
    | succ j =>
      have := ih (p + 1) j (by simpa using hi) h.2
      rw [show p + (j + 1) = p + 1 + j by omega, this]
      rfl

theorem memHolds_nulFree (content : Nat → Byte) (bs : List Byte) (p : Nat)
    (h : MemHolds content p bs) (hs : ∀ b ∈ bs, b ≠ 0) :
    ∀ i, i < bs.length → content (p + i) ≠ 0 := by
  intro i hi
  rw [memHolds_get content bs p i hi h]
  exact hs _ (List.get_mem bs i hi)

theorem memHolds_map_range (content : Nat → Byte) :
    ∀ (bs : List Byte) (p : Nat), MemHolds content p bs →
      (List.range' p bs.length).map content = bs := by
  intro bs
  induction bs with
  | nil => intro p _; rfl
  | cons b bs ih =>
    intro p h
    simp [List.range'_succ, h.1, ih (p + 1) h.2]

/-- The string view of a NUL-free string held in memory and followed by a NUL
inside the buffer is that string. -/
theorem cString_of_memHolds (content : Nat → Byte) (limit p : Nat) (s : List Byte)
    (h : MemHolds content p (s ++ [0])) (hs : ∀ b ∈ s, b ≠ 0) (hlt : p + s.length < limit) :
    cString content p limit = s := by
  rw [memHolds_append] at h
  rw [cString_run content limit s.length p (memHolds_nulFree content s p h.1 hs) h.2.1 hlt]
  exact memHolds_map_range content s p h.1

theorem decodes_append (cs m : Bool) :
    ∀ (evs1 evs2 : List Event) (doc doc1 doc2 : BxDocument),
      Decodes cs m doc evs1 doc1 → Decodes cs m doc1 evs2 doc2 →
      Decodes cs m doc (evs1 ++ evs2) doc2 := by
  intro evs1
  induction evs1 with
  | nil =>
    intro evs2 doc doc1 doc2 h1 h2
    simp only [Decodes] at h1
    subst h1
    exact h2
  | cons e evs ih =>
    intro evs2 doc doc1 doc2 h1 h2
    exact ⟨h1.1, h1.2.1, ih evs2 _ doc1 doc2 h1.2.2 h2⟩

/-- What `Decodes` says about the list of results of the successive calls. -/
theorem decodes_repeat (cs m : Bool) :
    ∀ (evs : List Event) (doc doc2 : BxDocument), Decodes cs m doc evs doc2 →
      (BxDocumentNext_repeat cs m evs.length doc).map (fun r => r.status)
        = List.replicate evs.length BX_STATUS_SUCCESS ∧
      (BxDocumentNext_repeat cs m evs.length doc).map BxOut.event = evs.map some ∧
      BxDocumentNext_iterate cs m evs.length doc = doc2 := by
  intro evs
  induction evs with
  | nil =>
    intro doc doc2 h
    simp only [Decodes] at h
    subst h
    exact ⟨rfl, rfl, rfl⟩
  | cons e evs ih =>
    intro doc doc2 h
    obtain ⟨h1, h2, h3⟩ := ih _ doc2 h.2.2
    refine ⟨?_, ?_, ?_⟩
    · simp only [List.length_cons, BxDocumentNext_repeat, List.map_cons, List.replicate_succ,
        h.1, h1]
    · simp only [List.length_cons, BxDocumentNext_repeat, List.map_cons, h.2.1, h2]
    · simpa only [List.length_cons, BxDocumentNext_iterate] using h3

/-- One string-bearing token held in memory is decoded by one call in Outermost
mode. -/
theorem BxDocumentNext_string_token (cs m : Bool) (doc : BxDocument) (t : Byte) (s : List Byte)
    (ht : t.val ≤ 3) (hs : ∀ b ∈ s, b ≠ 0) (hmode : OutermostMode doc)
    (hmem : MemHolds doc.content doc.head (t :: (s ++ [0])))
    (hlen : doc.head + s.length + 2 ≤ doc.length) :
    (BxDocumentNext cs m doc).status = BX_STATUS_SUCCESS ∧
    (BxDocumentNext cs m doc).type = some (t.val : Int) ∧
    (BxDocumentNext cs m doc).data = some (BxData.string (doc.head + 1)) ∧
    cString doc.content (doc.head + 1) doc.length = s ∧
    (BxDocumentNext cs m doc).doc =
      { doc with head := doc.head + s.length + 2,
                 context := if t.val = 1 then BX_CONTEXT_ATTRIBS else BX_CONTEXT_OUTERMOST } := by
  obtain ⟨htag, hrest⟩ := hmem
  have hview := cString_of_memHolds doc.content doc.length (doc.head + 1) s hrest hs (by omega)
  rw [memHolds_append] at hrest
  rw [BxDocumentNext_of_outermost cs m doc hmode]
  obtain ⟨h1, h2, h3, h4, h5, h6, h7, -⟩ := BxDocumentNext_switch_string cs
    { doc with context := BX_CONTEXT_OUTERMOST } s.length (by simp only; rw [htag]; exact ht)
    (memHolds_nulFree doc.content s (doc.head + 1) hrest.1 hs) (by simp only; omega)
    (Or.inl hrest.2.1)
  simp only [htag] at h2 h5
  refine ⟨h1, h2, h3, hview, ?_⟩
  cases hr : (BxDocumentNext_switch cs { doc with context := BX_CONTEXT_OUTERMOST }).doc with
  | mk l c h x =>
    rw [hr] at h4 h5 h6 h7
    simp only at h4 h5 h6 h7
    rw [h4, h5, h6, h7]

/-- One attribute record held in memory is decoded by one call in Attributes
mode, when the allocation succeeds. -/
theorem BxDocumentNext_attrib_record (cs : Bool) (doc : BxDocument) (k v : List Byte)
    (hk : ∀ b ∈ k, b ≠ 0) (hv : ∀ b ∈ v, b ≠ 0) (hmode : doc.context = BX_CONTEXT_ATTRIBS)
    (hmem : MemHolds doc.content doc.head (1 :: (k ++ [0] ++ (v ++ [0]))))
    (hlen : doc.head + k.length + v.length + 3 ≤ doc.length) :
    (BxDocumentNext cs true doc).status = BX_STATUS_SUCCESS ∧
    (BxDocumentNext cs true doc).event = some (Event.Attribute k v) ∧
    (BxDocumentNext cs true doc).doc = { doc with head := doc.head + k.length + v.length + 3 } := by
  obtain ⟨len, content, head, context⟩ := doc
  simp only at hmode hmem hlen ⊢
  subst hmode
  obtain ⟨htag, hrest⟩ := hmem
  rw [memHolds_append] at hrest
  obtain ⟨hkm, hvm⟩ := hrest
  have hkview := cString_of_memHolds content len (head + 1) k hkm hk (by omega)
  have hvview := cString_of_memHolds content len (head + 1 + (k ++ [0]).length) v hvm hv
    (by simp; omega)
  rw [memHolds_append] at hkm hvm
  have hcv : charValue cs (content head) = 1 := by
    rw [htag]; exact charValue_of_lt cs 1 (by decide)
  obtain ⟨ks, kd, -⟩ := BxDocumentReadString_run cs
    { length := len, content := content, head := head + 1, context := BX_CONTEXT_ATTRIBS }
    k.length (memHolds_nulFree content k (head + 1) hkm.1 hk) (by simp only; omega)
    (Or.inl hkm.2.1)
  have hoff : head + 1 + (k ++ [0]).length = head + 1 + k.length + 1 := by simp; omega
  rw [hoff] at hvm hvview
  obtain ⟨vs, vd, -⟩ := BxDocumentReadString_run cs
    { length := len, content := content, head := head + 1 + k.length + 1,
      context := BX_CONTEXT_ATTRIBS }
    v.length (memHolds_nulFree content v _ hvm.1 hv) (by simp only; omega) (Or.inl hvm.2.1)
  simp only at ks kd vs vd
  rw [BxDocumentNext_of_attribs _ _ _ rfl]
  refine ⟨?_, ?_, ?_⟩
  · simp [BxDocumentNextAttr, hcv]
  · simp [BxDocumentNextAttr, hcv, BxOut.event, ks, kd, vs, vd, hkview, hvview]
  · simp [BxDocumentNextAttr, hcv, ks, kd, vs, vd]
    omega

/-- The byte `0x00` in Attributes mode is decoded as `AttributeEnd`. -/
theorem BxDocumentNext_attrib_end (cs m : Bool) (doc : BxDocument)
    (hmode : doc.context = BX_CONTEXT_ATTRIBS) (hb : doc.content doc.head = 0) :
    (BxDocumentNext cs m doc).status = BX_STATUS_SUCCESS ∧
    (BxDocumentNext cs m doc).event = some Event.AttributeEnd ∧
    (BxDocumentNext cs m doc).doc =
      { doc with head := doc.head + 1, context := BX_CONTEXT_OUTERMOST } := by
  have hcv : charValue cs (doc.content doc.head) = 0 := (charValue_eq_zero_iff cs _).2 hb
  rw [BxDocumentNext_of_attribs cs m doc hmode]
  simp +decide [BxDocumentNextAttr, hcv, BxOut.event]

/-- An attribute block held in memory is decoded, in Attributes mode and with
successful allocations, into its events; the session ends just past the block,
in Outermost mode. -/
theorem decodes_attribs (cs : Bool) :
    ∀ (attrs : List (List Byte × List Byte)) (doc : BxDocument), AttribsNulFree attrs →
      doc.context = BX_CONTEXT_ATTRIBS →
      MemHolds doc.content doc.head (encodeAttribs attrs) →
      doc.head + (encodeAttribs attrs).length ≤ doc.length →
      Decodes cs true doc (attribEvents attrs)
        { doc with head := doc.head + (encodeAttribs attrs).length,
                   context := BX_CONTEXT_OUTERMOST } := by
  intro attrs
  induction attrs with
  | nil =>
    intro doc _ hmode hmem _
    obtain ⟨h1, h2, h3⟩ := BxDocumentNext_attrib_end cs true doc hmode hmem.1
    refine ⟨h1, h2, ?_⟩
    rw [h3]
    rfl
  | cons kv rest ih =>
    intro doc hnul hmode hmem hlen
    have henc : encodeAttribs (kv :: rest)
        = (1 :: (kv.1 ++ [0] ++ (kv.2 ++ [0]))) ++ encodeAttribs rest := by
      simp [encodeAttribs]
    have hl : (encodeAttribs (kv :: rest)).length
        = kv.1.length + kv.2.length + 3 + (encodeAttribs rest).length := by
      rw [henc]; simp; omega
    rw [henc, memHolds_append] at hmem
    have hl1 : (1 :: (kv.1 ++ [0] ++ (kv.2 ++ [0]))).length = kv.1.length + kv.2.length + 3 := by
      simp; omega
    rw [hl1] at hmem
    obtain ⟨h1, h2, h3⟩ := BxDocumentNext_attrib_record cs doc kv.1 kv.2 hnul.1 hnul.2.1 hmode
      hmem.1 (by omega)
    refine ⟨h1, h2, ?_⟩
    rw [h3]
    have := ih { doc with head := doc.head + kv.1.length + kv.2.length + 3 } hnul.2.2 hmode
      (by simpa [Nat.add_assoc] using hmem.2) (by simp only; omega)
    simp only at this
    rw [hl]
    rw [show doc.head + (kv.1.length + kv.2.length + 3 + (encodeAttribs rest).length)
      = doc.head + kv.1.length + kv.2.length + 3 + (encodeAttribs rest).length by omega]
    exact this

/-- The event read out of a call that stored a type and a string pointer. -/
theorem event_of_string (r : BxOut) (t : Int) (off : Nat) (ht : r.type = some t)
    (hd : r.data = some (BxData.string off)) :
    r.event =
      if t = BX_TYPE_COMMENT then some (Event.Comment (cString r.doc.content off r.doc.length))
      else if t = BX_TYPE_TAG then some (Event.OpenTag (cString r.doc.content off r.doc.length))
      else if t = BX_TYPE_END_TAG then
        some (Event.EndTag (cString r.doc.content off r.doc.length))
      else if t = BX_TYPE_TEXT then some (Event.Text (cString r.doc.content off r.doc.length))
      else none := by
  simp [BxOut.event, ht, hd]

/-- A sequence of tokens held in memory is decoded, from Outermost mode and with
successful allocations, into its events; the session ends just past the tokens,
in Outermost mode. -/
theorem decodes_tokens (cs : Bool) :
    ∀ (toks : List Token) (doc : BxDocument), (∀ t ∈ toks, t.NulFree) → OutermostMode doc →
      MemHolds doc.content doc.head (encodeTokens toks) →
      doc.head + (encodeTokens toks).length ≤ doc.length →
      ∃ doc2, Decodes cs true doc (tokensEvents toks) doc2 ∧ OutermostMode doc2 ∧
        doc2.head = doc.head + (encodeTokens toks).length ∧ doc2.length = doc.length ∧
        doc2.content = doc.content := by
  intro toks
  induction toks with
  | nil =>
    intro doc _ hmode _ _
    exact ⟨doc, rfl, hmode, rfl, rfl, rfl⟩
  | cons t ts ih =>
    intro doc hnul hmode hmem hlen
    have hts : ∀ t ∈ ts, t.NulFree := fun t ht => hnul t (List.mem_cons_of_mem _ ht)
    have ht := hnul t (List.mem_cons_self _ _)
    simp only [encodeTokens, memHolds_append, List.length_append] at hmem hlen
    obtain ⟨hm1, hm2⟩ := hmem
    -- a token that is one tag byte and one string
    have simple : ∀ (b : Byte) (s : List Byte) (e : Event), b.val ≤ 3 → b.val ≠ 1 →
        encodeToken t = b :: (s ++ [0]) → tokenEvents t = [e] → (∀ x ∈ s, x ≠ 0) →
        (∀ r : BxOut, r.type = some (b.val : Int) → r.data = some (BxData.string (doc.head + 1)) →
          cString r.doc.content (doc.head + 1) r.doc.length = s → r.event = some e) →
        ∃ doc2, Decodes cs true doc (tokensEvents (t :: ts)) doc2 ∧ OutermostMode doc2 ∧
          doc2.head = doc.head + (encodeTokens (t :: ts)).length ∧ doc2.length = doc.length ∧
          doc2.content = doc.content := by
      intro b s e hb3 hb1 henc hev hs hevent
      rw [henc] at hm1 hm2 hlen
      have hl : (b :: (s ++ [0])).length = s.length + 2 := by simp
      rw [hl] at hm2 hlen
      obtain ⟨h1, h2, h3, h4, h5⟩ := BxDocumentNext_string_token cs true doc b s hb3 hs hmode
        hm1 (by omega)
      rw [if_neg hb1] at h5
      obtain ⟨doc2, d1, d2, d3, d4, d5⟩ := ih
        { doc with head := doc.head + s.length + 2, context := BX_CONTEXT_OUTERMOST } hts
        (Or.inl rfl) (by simpa [Nat.add_assoc] using hm2) (by simp only; omega)
      simp only at d3 d4 d5
      refine ⟨doc2, ?_, d2, ?_, d4, d5⟩
      · simp only [tokensEvents, hev, List.singleton_append]
        refine ⟨h1, hevent _ h2 h3 ?_, ?_⟩
        · rw [h5]; exact h4
        · rw [h5]; exact d1
      · rw [d3]
        simp only [encodeTokens, henc, List.length_append, hl]
        omega
    cases t with
    | Comment s =>
      refine simple 0 s (Event.Comment s) (by decide) (by decide) rfl rfl ht ?_
      intro r h2 h3 h4
      rw [event_of_string r _ _ h2 h3, h4]
      rfl
    | EndTag s =>
      refine simple 2 s (Event.EndTag s) (by decide) (by decide) rfl rfl ht ?_
      intro r h2 h3 h4
      rw [event_of_string r _ _ h2 h3, h4]
      rfl
    | Text s =>
      refine simple 3 s (Event.Text s) (by decide) (by decide) rfl rfl ht ?_
      intro r h2 h3 h4
      rw [event_of_string r _ _ h2 h3, h4]
      rfl
    | OpenTag s attrs =>
      have henc : encodeToken (Token.OpenTag s attrs)
          = (1 :: (s ++ [0])) ++ encodeAttribs attrs := by
        simp [encodeToken]
      rw [henc, memHolds_append] at hm1
      rw [henc] at hm2 hlen
      have hl : (1 :: (s ++ [0])).length = s.length + 2 := by simp
      simp only [List.length_append] at hm2 hlen
      rw [hl] at hm1 hm2 hlen
      obtain ⟨h1, h2, h3, h4, h5⟩ := BxDocumentNext_string_token cs true doc 1 s (by decide)
        ht.1 hmode hm1.1 (by omega)
      rw [if_pos (by decide)] at h5
      have ha := decodes_attribs cs attrs
        { doc with head := doc.head + s.length + 2, context := BX_CONTEXT_ATTRIBS } ht.2 rfl
        (by simpa [Nat.add_assoc] using hm1.2) (by simp only; omega)
      simp only at ha
      obtain ⟨doc2, d1, d2, d3, d4, d5⟩ := ih
        { doc with head := doc.head + s.length + 2 + (encodeAttribs attrs).length,
                   context := BX_CONTEXT_OUTERMOST } hts
        (Or.inl rfl) (by simpa [Nat.add_assoc] using hm2) (by simp only; omega)
      simp only at d3 d4 d5
      refine ⟨doc2, ?_, d2, ?_, d4, d5⟩
      · have hev : tokensEvents (Token.OpenTag s attrs :: ts)
            = Event.OpenTag s :: (attribEvents attrs ++ tokensEvents ts) := by
          simp [tokensEvents, tokenEvents]
        rw [hev]
        refine ⟨h1, ?_, ?_⟩
        · rw [event_of_string _ _ _ h2 h3, h5]
          simp only
          rw [h4]
          rfl
        · rw [h5]
          exact decodes_append cs true _ _ _ _ _ ha d1
      · rw [d3]
        simp only [encodeTokens, henc, List.length_append, hl]
        omega

/-- The freshly loaded encoded document holds its encoding from offset 0. -/
theorem loadEncoded_spec (pad : Byte) (toks : List Token) :
    OutermostMode (loadEncoded pad toks) ∧
    (loadEncoded pad toks).head = 0 ∧
    (loadEncoded pad toks).length = (encodeTokens toks).length + 1 ∧
    MemHolds (loadEncoded pad toks).content 0 (encodeTokens toks) ∧
    (loadEncoded pad toks).content (encodeTokens toks).length = 255 := by
  have hm := memHolds_memOf pad (encodeDocument toks) []
  simp only [List.nil_append, List.length_nil] at hm
  unfold encodeDocument at hm
  rw [memHolds_append] at hm
  refine ⟨Or.inr ⟨rfl, rfl⟩, rfl, ?_, hm.1, ?_⟩
  · simp [loadEncoded, BxDocumentLoadFromMemory, encodeDocument]
  · have := hm.2.1
    simpa using this

/-! ## The scan loop and the frame of a call -/

/-- The loop of `BxDocumentReadString`, characterised: it stops at the first
offset `e ≥ head` that holds a NUL or is not below `length`, after reading the
offsets `head .. e`. -/
theorem BxDocumentReadString_loop_spec (cs : Bool) (length : Nat) (content : Nat → Byte) :
    ∀ (n head : Nat), length - head = n →
      head ≤ (BxDocumentReadString_loop cs length content head).1 ∧
      (BxDocumentReadString_loop cs length content head).1 - head ≤ length - head ∧
      (∀ i, head ≤ i → i < (BxDocumentReadString_loop cs length content head).1 →
        content i ≠ 0 ∧ i < length) ∧
      (content (BxDocumentReadString_loop cs length content head).1 = 0 ∨
        length ≤ (BxDocumentReadString_loop cs length content head).1) ∧
      (BxDocumentReadString_loop cs length content head).2 =
        List.range' head ((BxDocumentReadString_loop cs length content head).1 - head + 1) := by
  intro n
  induction n with
  | zero =>
    intro head hn
    rw [BxDocumentReadString_loop]
    have : ¬ (charValue cs (content head) ≠ 0 ∧ head < length) := by
      rintro ⟨-, h2⟩
      omega
    simp only [this, if_false]
    refine ⟨Nat.le_refl _, by omega, ?_, Or.inr (by omega), by simp⟩
    intro i h1 h2
    omega
  | succ n ih =>
    intro head hn
    rw [BxDocumentReadString_loop]
    by_cases hc : charValue cs (content head) ≠ 0 ∧ head < length
    · obtain ⟨i1, i2, i3, i4, i5⟩ := ih (head + 1) (by omega)
      have hne : content head ≠ 0 := fun h => hc.1 ((charValue_eq_zero_iff cs _).2 h)
      simp only [hc, ne_eq, not_false_eq_true, and_self, if_true]
      refine ⟨by omega, by omega, ?_, i4, ?_⟩
      · intro i h1 h2
        by_cases hi : i = head
        · subst hi
          exact ⟨hne, hc.2⟩
        · exact i3 i (by omega) h2
      · rw [i5]
        rw [show (BxDocumentReadString_loop cs length content (head + 1)).1 - head + 1
          = ((BxDocumentReadString_loop cs length content (head + 1)).1 - (head + 1) + 1) + 1
          by omega]
        simp only [List.range'_succ]
    · simp only [hc, if_false]
      refine ⟨Nat.le_refl _, by omega, ?_, ?_, by simp⟩
      · intro i h1 h2
        omega
      · by_cases h0 : content head = 0
        · exact Or.inl h0
        · right
          by_contra hlt
          exact hc ⟨fun h => h0 ((charValue_eq_zero_iff cs _).1 h), by omega⟩

/-- The function `BxDocumentReadString`, characterised through the offset `e`
at which its loop stops: the cursor ends at `e + 1`, nothing else changes. -/
theorem BxDocumentReadString_spec (cs : Bool) (doc : BxDocument) :
    ∃ e : Nat, doc.head ≤ e ∧ e - doc.head ≤ doc.length - doc.head ∧
      (∀ i, doc.head ≤ i → i < e → doc.content i ≠ 0 ∧ i < doc.length) ∧
      (doc.content e = 0 ∨ doc.length ≤ e) ∧
      BxDocumentReadString cs doc =
        { string := doc.head, doc := { doc with head := e + 1 },
          reads := List.range' doc.head (e - doc.head + 1) } := by
  obtain ⟨h1, h2, h3, h4, h5⟩ :=
    BxDocumentReadString_loop_spec cs doc.length doc.content _ doc.head rfl
  refine ⟨(BxDocumentReadString_loop cs doc.length doc.content doc.head).1, h1, h2, h3, h4, ?_⟩
  simp only [BxDocumentReadString]
  rw [h5]

/-- The offset at which a scan stops is determined by the memory. -/
theorem scanStops_unique (content : Nat → Byte) (length s e1 e2 : Nat)
    (h1 : ScanStops content length s e1) (h2 : ScanStops content length s e2) : e1 = e2 := by
  obtain ⟨a1, b1, c1⟩ := h1
  obtain ⟨a2, b2, c2⟩ := h2
  by_contra hne
  rcases Nat.lt_or_gt_of_ne hne with h | h
  · have := b2 e1 a1 h
    rcases c1 with c | c
    · exact this.1 c
    · omega
  · have := b1 e2 a2 h
    rcases c2 with c | c
    · exact this.1 c
    · omega

/-- A scan that stops inside the buffer stops in the same place in any memory
that agrees on the scanned offsets, the stopping offset included. -/
theorem scanStops_congr (c1 c2 : Nat → Byte) (length s e : Nat)
    (h : ScanStops c1 length s e) (he : e < length)
    (hagree : ∀ i, s ≤ i → i ≤ e → c1 i = c2 i) : ScanStops c2 length s e := by
  obtain ⟨a, b, c⟩ := h
  refine ⟨a, ?_, ?_⟩
  · intro i h1 h2
    rw [← hagree i h1 (by omega)]
    exact b i h1 h2
  · rcases c with c | c
    · left
      rw [← hagree e a (Nat.le_refl _)]
      exact c
    · omega

/-- The function `BxDocumentReadString` in terms of `ScanStops`. -/
theorem BxDocumentReadString_scan (cs : Bool) (doc : BxDocument) :
    ∃ e : Nat, ScanStops doc.content doc.length doc.head e ∧
      BxDocumentReadString cs doc =
        { string := doc.head, doc := { doc with head := e + 1 },
          reads := List.range' doc.head (e - doc.head + 1) } := by
  obtain ⟨e, h1, -, h3, h4, h5⟩ := BxDocumentReadString_spec cs doc
  exact ⟨e, ⟨h1, h3, h4⟩, h5⟩

/-- The three outcomes of the `switch` of `BxDocumentNext`: a string-bearing
token, Eof, or the `default` case. -/
theorem BxDocumentNext_switch_cases (cs : Bool) (doc : BxDocument) :
    (∃ (t : Int) (e : Nat), (t = 0 ∨ t = 1 ∨ t = 2 ∨ t = 3) ∧
      charValue cs (doc.content doc.head) = t ∧
      ScanStops doc.content doc.length (doc.head + 1) e ∧
      BxDocumentNext_switch cs doc =
        { status := BX_STATUS_SUCCESS, type := some t,
          data := some (BxData.string (doc.head + 1)),
          doc := { doc with head := e + 1,
                            context := if t = 1 then BX_CONTEXT_ATTRIBS else doc.context },
          reads := doc.head :: List.range' (doc.head + 1) (e - (doc.head + 1) + 1) }) ∨
    (charValue cs (doc.content doc.head) = 255 ∧
      BxDocumentNext_switch cs doc =
        { status := BX_STATUS_SUCCESS, type := some BX_TYPE_EOF, data := some BxData.null,
          doc := { doc with head := doc.head + 1 }, reads := [doc.head] }) ∨
    (¬ (charValue cs (doc.content doc.head) = 0 ∨ charValue cs (doc.content doc.head) = 1 ∨
        charValue cs (doc.content doc.head) = 2 ∨ charValue cs (doc.content doc.head) = 3 ∨
        charValue cs (doc.content doc.head) = 255) ∧
      BxDocumentNext_switch cs doc =
        { status := BX_STATUS_BAD_DOCUMENT, type := none, data := none,
          doc := { doc with head := doc.head + 1 }, reads := [doc.head] }) := by
  obtain ⟨e, hscan, hrs⟩ := BxDocumentReadString_scan cs { doc with head := doc.head + 1 }
  simp only at hscan hrs
  by_cases h0 : charValue cs (doc.content doc.head) = 0
  · left
    refine ⟨0, e, Or.inl rfl, h0, hscan, ?_⟩
    simp [BxDocumentNext_switch, h0, hrs]
  by_cases h1 : charValue cs (doc.content doc.head) = 1
  · left
    refine ⟨1, e, Or.inr (Or.inl rfl), h1, hscan, ?_⟩
    simp [BxDocumentNext_switch, h1, hrs]
  by_cases h2 : charValue cs (doc.content doc.head) = 2
  · left
    refine ⟨2, e, Or.inr (Or.inr (Or.inl rfl)), h2, hscan, ?_⟩
    simp [BxDocumentNext_switch, h2, hrs]
  by_cases h3 : charValue cs (doc.content doc.head) = 3
  · left
    refine ⟨3, e, Or.inr (Or.inr (Or.inr rfl)), h3, hscan, ?_⟩
    simp [BxDocumentNext_switch, h3, hrs]
  by_cases h255 : charValue cs (doc.content doc.head) = 255
  · right; left
    exact ⟨h255, BxDocumentNext_switch_eof cs doc h255⟩
  · right; right
    refine ⟨by tauto, ?_⟩
    simp [BxDocumentNext_switch, h0, h1, h2, h3, h255]

/-- The four outcomes of `BxDocumentNextAttr`: end of attributes, a failed
allocation, an attribute, or the `default` case. -/
theorem BxDocumentNextAttr_cases (cs m : Bool) (doc : BxDocument) :
    (doc.content doc.head = 0 ∧
      BxDocumentNextAttr cs m doc =
        { status := BX_STATUS_SUCCESS, type := some BX_TYPE_ATTRIB_END, data := some BxData.null,
          doc := { doc with head := doc.head + 1, context := BX_CONTEXT_OUTERMOST },
          reads := [doc.head] }) ∨
    (doc.content doc.head = 1 ∧ m = false ∧
      BxDocumentNextAttr cs m doc =
        { status := BX_STATUS_FAILURE, type := some BX_TYPE_ATTRIB, data := none,
          doc := { doc with head := doc.head + 1 }, reads := [doc.head] }) ∨
    (∃ e1 e2 : Nat, doc.content doc.head = 1 ∧ m = true ∧
      ScanStops doc.content doc.length (doc.head + 1) e1 ∧
      ScanStops doc.content doc.length (e1 + 1) e2 ∧
      BxDocumentNextAttr cs m doc =
        { status := BX_STATUS_SUCCESS, type := some BX_TYPE_ATTRIB,
          data := some (BxData.attrib (doc.head + 1) (e1 + 1)),
          doc := { doc with head := e2 + 1 },
          reads := doc.head :: (List.range' (doc.head + 1) (e1 - (doc.head + 1) + 1) ++
            List.range' (e1 + 1) (e2 - (e1 + 1) + 1)) }) ∨
    (doc.content doc.head ≠ 0 ∧ doc.content doc.head ≠ 1 ∧
      BxDocumentNextAttr cs m doc =
        { status := BX_STATUS_BAD_DOCUMENT, type := none, data := none,
          doc := { doc with head := doc.head + 1 }, reads := [doc.head] }) := by
  have e0 := charValue_eq_zero_iff cs (doc.content doc.head)
  have e1 : charValue cs (doc.content doc.head) = 1 ↔ doc.content doc.head = 1 := by
    rw [show (1 : Int) = ((1 : Nat) : Int) from rfl, charValue_eq_iff_of_lt cs _ 1 (by omega)]
    constructor
    · intro h; exact Fin.ext h
    · intro h; rw [h]; rfl
  by_cases h0 : doc.content doc.head = 0
  · left
    refine ⟨h0, ?_⟩
    simp [BxDocumentNextAttr, e0.2 h0]
  have c0 : ¬ charValue cs (doc.content doc.head) = 0 := fun h => h0 (e0.1 h)
  by_cases h1 : doc.content doc.head = 1
  · have c1 := e1.2 h1
    cases m with
    | false =>
      right; left
      refine ⟨h1, rfl, ?_⟩
      simp [BxDocumentNextAttr, c1]
    | true =>
      right; right; left
      obtain ⟨k, hk, hkr⟩ := BxDocumentReadString_scan cs { doc with head := doc.head + 1 }
      obtain ⟨v, hv, hvr⟩ := BxDocumentReadString_scan cs { doc with head := k + 1 }
      simp only at hk hkr hv hvr
      refine ⟨k, v, h1, rfl, hk, hv, ?_⟩
      simp [BxDocumentNextAttr, c1, hkr, hvr]
  · right; right; right
    have c1 : ¬ charValue cs (doc.content doc.head) = 1 := fun h => h1 (e1.1 h)
    refine ⟨h0, h1, ?_⟩
    simp [BxDocumentNextAttr, c0, c1]

/-- The three ways `BxDocumentNext` dispatches: to `BxDocumentNextAttr`, to the
resume-misuse failure, or to the `switch` with a context that is neither
Attributes nor None. -/
theorem BxDocumentNext_cases (cs m : Bool) (doc : BxDocument) :
    (doc.context = BX_CONTEXT_ATTRIBS ∧
      BxDocumentNext cs m doc = BxDocumentNextAttr cs m doc) ∨
    (doc.context = BX_CONTEXT_NONE ∧ doc.head ≠ 0 ∧
      BxDocumentNext cs m doc =
        { status := BX_STATUS_FAILURE, type := none, data := none, doc := doc, reads := [] }) ∨
    (∃ ctx : Int, ctx ≠ BX_CONTEXT_ATTRIBS ∧ ctx ≠ BX_CONTEXT_NONE ∧
      doc.context ≠ BX_CONTEXT_ATTRIBS ∧
      ((doc.context = BX_CONTEXT_NONE ∧ doc.head = 0 ∧ ctx = BX_CONTEXT_OUTERMOST) ∨
       (doc.context ≠ BX_CONTEXT_NONE ∧ ctx = doc.context)) ∧
      BxDocumentNext cs m doc = BxDocumentNext_switch cs { doc with context := ctx }) := by
  by_cases hA : doc.context = BX_CONTEXT_ATTRIBS
  · left
    exact ⟨hA, BxDocumentNext_of_attribs cs m doc hA⟩
  by_cases hN : doc.context = BX_CONTEXT_NONE
  · by_cases h0 : doc.head = 0
    · right; right
      refine ⟨BX_CONTEXT_OUTERMOST, by decide, by decide, hA, Or.inl ⟨hN, h0, rfl⟩, ?_⟩
      simp [BxDocumentNext, hN, h0]
    · right; left
      refine ⟨hN, h0, ?_⟩
      simp [BxDocumentNext, hN, h0]
  · right; right
    refine ⟨doc.context, hA, hN, hA, Or.inr ⟨hN, rfl⟩, ?_⟩
    simp [BxDocumentNext, hA, hN]

/-- A call changes neither `length` nor `content`. -/
theorem BxDocumentNext_frame (cs m : Bool) (doc : BxDocument) :
    (BxDocumentNext cs m doc).doc.length = doc.length ∧
    (BxDocumentNext cs m doc).doc.content = doc.content := by
  rcases BxDocumentNext_cases cs m doc with ⟨-, hE⟩ | ⟨-, -, hE⟩ | ⟨ctx, -, -, -, -, hE⟩
  · rcases BxDocumentNextAttr_cases cs m doc with ⟨-, hR⟩ | ⟨-, -, hR⟩ |
      ⟨e1, e2, -, -, -, -, hR⟩ | ⟨-, -, hR⟩ <;> rw [hE, hR] <;> exact ⟨rfl, rfl⟩
  · rw [hE]
    exact ⟨rfl, rfl⟩
  · rcases BxDocumentNext_switch_cases cs { doc with context := ctx } with
      ⟨t, e, -, -, -, hR⟩ | ⟨-, hR⟩ | ⟨-, hR⟩ <;> rw [hE, hR] <;> exact ⟨rfl, rfl⟩

/-- A call never moves the cursor back, and moves it forward by at least one
unless it is the resume-misuse failure (context None with a non-zero cursor). -/
theorem BxDocumentNext_head (cs m : Bool) (doc : BxDocument) :
    doc.head ≤ (BxDocumentNext cs m doc).doc.head ∧
    (¬ (doc.context = BX_CONTEXT_NONE ∧ doc.head ≠ 0) →
      doc.head < (BxDocumentNext cs m doc).doc.head) ∧
    ((BxDocumentNext cs m doc).status ≠ BX_STATUS_FAILURE →
      doc.head < (BxDocumentNext cs m doc).doc.head) := by
  rcases BxDocumentNext_cases cs m doc with ⟨hA, hE⟩ | ⟨hN, h0, hE⟩ | ⟨ctx, -, -, -, -, hE⟩
  · have hnn : ¬ (doc.context = BX_CONTEXT_NONE ∧ doc.head ≠ 0) := by
      rw [hA]; exact fun h => absurd h.1 (by decide)
    rcases BxDocumentNextAttr_cases cs m doc with ⟨-, hR⟩ | ⟨-, -, hR⟩ |
      ⟨e1, e2, -, -, s1, s2, hR⟩ | ⟨-, -, hR⟩
    · rw [hE, hR]; simp
    · rw [hE, hR]; simp
    · rw [hE, hR]
      have := s1.1
      have := s2.1
      simp only
      refine ⟨by omega, fun _ => by omega, fun _ => by omega⟩
    · rw [hE, hR]; simp
  · rw [hE]
    simp only
    exact ⟨Nat.le_refl _, fun h => absurd ⟨hN, h0⟩ h, fun h => absurd rfl h⟩
  · rcases BxDocumentNext_switch_cases cs { doc with context := ctx } with
      ⟨t, e, -, -, s, hR⟩ | ⟨-, hR⟩ | ⟨-, hR⟩
    · rw [hE, hR]
      have := s.1
      simp only at this ⊢
      refine ⟨by omega, fun _ => by omega, fun _ => by omega⟩
    · rw [hE, hR]; simp
    · rw [hE, hR]; simp

/-- The cursor after a call is one past the last offset the call read; a call
that read nothing left the cursor in place. -/
theorem BxDocumentNext_head_reads (cs m : Bool) (doc : BxDocument) :
    ((BxDocumentNext cs m doc).reads = [] ∧ (BxDocumentNext cs m doc).doc.head = doc.head) ∨
    (∃ i, i ∈ (BxDocumentNext cs m doc).reads ∧ (BxDocumentNext cs m doc).doc.head = i + 1) := by
  have hmem : ∀ s e : Nat, s ≤ e → e ∈ List.range' s (e - s + 1) := by
    intro s e h
    rw [List.mem_range'_1]
    omega
  rcases BxDocumentNext_cases cs m doc with ⟨-, hE⟩ | ⟨-, -, hE⟩ | ⟨ctx, -, -, -, -, hE⟩
  · rcases BxDocumentNextAttr_cases cs m doc with ⟨-, hR⟩ | ⟨-, -, hR⟩ |
      ⟨e1, e2, -, -, s1, s2, hR⟩ | ⟨-, -, hR⟩
    · rw [hE, hR]; right; exact ⟨doc.head, by simp, rfl⟩
    · rw [hE, hR]; right; exact ⟨doc.head, by simp, rfl⟩
    · rw [hE, hR]; right
      refine ⟨e2, ?_, rfl⟩
      simp only [List.mem_cons, List.mem_append]
      exact Or.inr (Or.inr (hmem _ _ s2.1))
    · rw [hE, hR]; right; exact ⟨doc.head, by simp, rfl⟩
  · rw [hE]; left; exact ⟨rfl, rfl⟩
  · rcases BxDocumentNext_switch_cases cs { doc with context := ctx } with
      ⟨t, e, -, -, s, hR⟩ | ⟨-, hR⟩ | ⟨-, hR⟩
    · rw [hE, hR]; right
      refine ⟨e, ?_, rfl⟩
      simp only [List.mem_cons]
      exact Or.inr (hmem _ _ s.1)
    · rw [hE, hR]; right; exact ⟨doc.head, by simp, rfl⟩
    · rw [hE, hR]; right; exact ⟨doc.head, by simp, rfl⟩

/-- How a call relates the context before it, the context after it, the status
and the stored type.  From Attributes: AttributeEnd leads to Outermost, anything
else stays in Attributes.  From any other context: OpenTag leads to Attributes,
anything else keeps the context (None at cursor 0 becoming Outermost). -/
theorem BxDocumentNext_mode (cs m : Bool) (doc : BxDocument) :
    (doc.context = BX_CONTEXT_ATTRIBS →
      ((BxDocumentNext cs m doc).status = BX_STATUS_SUCCESS ∧
        (BxDocumentNext cs m doc).type = some BX_TYPE_ATTRIB_END ∧
        (BxDocumentNext cs m doc).doc.context = BX_CONTEXT_OUTERMOST) ∨
      ((BxDocumentNext cs m doc).status = BX_STATUS_SUCCESS ∧
        (BxDocumentNext cs m doc).type = some BX_TYPE_ATTRIB ∧
        (BxDocumentNext cs m doc).doc.context = BX_CONTEXT_ATTRIBS) ∨
      ((BxDocumentNext cs m doc).status ≠ BX_STATUS_SUCCESS ∧
        (BxDocumentNext cs m doc).type ≠ some BX_TYPE_ATTRIB_END ∧
        (BxDocumentNext cs m doc).doc.context = BX_CONTEXT_ATTRIBS)) ∧
    (doc.context ≠ BX_CONTEXT_ATTRIBS →
      ((BxDocumentNext cs m doc).status = BX_STATUS_SUCCESS ∧
        (BxDocumentNext cs m doc).type = some BX_TYPE_TAG ∧
        (BxDocumentNext cs m doc).doc.context = BX_CONTEXT_ATTRIBS ∧
        (doc.context = BX_CONTEXT_NONE → doc.head = 0)) ∨
      (((BxDocumentNext cs m doc).status = BX_STATUS_SUCCESS →
          (BxDocumentNext cs m doc).type = some BX_TYPE_COMMENT ∨
          (BxDocumentNext cs m doc).type = some BX_TYPE_END_TAG ∨
          (BxDocumentNext cs m doc).type = some BX_TYPE_TEXT ∨
          (BxDocumentNext cs m doc).type = some BX_TYPE_EOF) ∧
        ((BxDocumentNext cs m doc).status ≠ BX_STATUS_SUCCESS →
          (BxDocumentNext cs m doc).type = none) ∧
        (((BxDocumentNext cs m doc).doc.context = doc.context ∧
            ((BxDocumentNext cs m doc).doc = doc ∨ doc.context ≠ BX_CONTEXT_NONE)) ∨
         (doc.context = BX_CONTEXT_NONE ∧ doc.head = 0 ∧
            (BxDocumentNext cs m doc).doc.context = BX_CONTEXT_OUTERMOST)))) := by
  constructor
  · intro hA
    rw [BxDocumentNext_of_attribs cs m doc hA]
    rcases BxDocumentNextAttr_cases cs m doc with ⟨-, hR⟩ | ⟨-, -, hR⟩ |
      ⟨e1, e2, -, -, -, -, hR⟩ | ⟨-, -, hR⟩
    · rw [hR]; left; exact ⟨rfl, rfl, rfl⟩
    · rw [hR]; right; right; exact ⟨by simp, by simp, hA⟩
    · rw [hR]; right; left; exact ⟨rfl, rfl, hA⟩
    · rw [hR]; right; right; exact ⟨by simp, by simp, hA⟩
  · intro hA
    rcases BxDocumentNext_cases cs m doc with ⟨h, -⟩ | ⟨hN, h0, hE⟩ | ⟨ctx, hcA, hcN, -, hctx, hE⟩
    · exact absurd h hA
    · rw [hE]
      right
      exact ⟨fun h => by simp at h, fun _ => rfl, Or.inl ⟨rfl, Or.inl rfl⟩⟩
    · have hrel : (ctx = doc.context ∧ doc.context ≠ BX_CONTEXT_NONE) ∨
          (doc.context = BX_CONTEXT_NONE ∧ doc.head = 0 ∧ ctx = BX_CONTEXT_OUTERMOST) := by
        rcases hctx with h | h
        · exact Or.inr h
        · exact Or.inl ⟨h.2, h.1⟩
      have h00 : doc.context = BX_CONTEXT_NONE → doc.head = 0 := by
        intro hN
        rcases hctx with h | h
        · exact h.2.1
        · exact absurd hN h.1
      rcases BxDocumentNext_switch_cases cs { doc with context := ctx } with
        ⟨t, e, ht, -, -, hR⟩ | ⟨-, hR⟩ | ⟨-, hR⟩
      · rw [hE, hR]
        rcases ht with rfl | rfl | rfl | rfl
        · right
          refine ⟨fun _ => Or.inl rfl, fun h => absurd rfl h, ?_⟩
          rcases hrel with h | h
          · exact Or.inl ⟨by simp [h.1], Or.inr h.2⟩
          · exact Or.inr ⟨h.1, h.2.1, by simp [h.2.2]⟩
        · left
          exact ⟨rfl, rfl, by simp, h00⟩
        · right
          refine ⟨fun _ => Or.inr (Or.inl rfl), fun h => absurd rfl h, ?_⟩
          rcases hrel with h | h
          · exact Or.inl ⟨by simp [h.1], Or.inr h.2⟩
          · exact Or.inr ⟨h.1, h.2.1, by simp [h.2.2]⟩
        · right
          refine ⟨fun _ => Or.inr (Or.inr (Or.inl rfl)), fun h => absurd rfl h, ?_⟩
          rcases hrel with h | h
          · exact Or.inl ⟨by simp [h.1], Or.inr h.2⟩
          · exact Or.inr ⟨h.1, h.2.1, by simp [h.2.2]⟩
      · rw [hE, hR]
        right
        refine ⟨fun _ => Or.inr (Or.inr (Or.inr rfl)), fun h => absurd rfl h, ?_⟩
        rcases hrel with h | h
        · exact Or.inl ⟨h.1, Or.inr h.2⟩
        · exact Or.inr ⟨h.1, h.2.1, h.2.2⟩
      · rw [hE, hR]
        right
        refine ⟨fun h => by simp at h, fun _ => rfl, ?_⟩
        rcases hrel with h | h
        · exact Or.inl ⟨h.1, Or.inr h.2⟩
        · exact Or.inr ⟨h.1, h.2.1, h.2.2⟩

/-- The string view at `off` when no offset in `[off, limit)` holds a NUL: the
bytes up to `limit`. -/
theorem cString_truncated (content : Nat → Byte) (limit : Nat) :
    ∀ (n off : Nat), limit - off = n → (∀ i, off ≤ i → i < limit → content i ≠ 0) →
      cString content off limit = (List.range' off (limit - off)).map content := by
  intro n
  induction n with
  | zero =>
    intro off hn _
    unfold cString
    rw [hn]
    rfl
  | succ n ih =>
    intro off hn hrun
    have hrec := ih (off + 1) (by omega) (fun i h1 h2 => hrun i (by omega) h2)
    unfold cString at hrec ⊢
    rw [hn, cStringAux]
    rw [show limit - (off + 1) = n by omega] at hrec
    have hne : content off ≠ 0 := hrun off (Nat.le_refl _) (by omega)
    simp [hne, hrec, List.range'_succ]

/-! ## Sequences of calls -/

/-- The token a successful call returns and the context it leaves: the token is
Attribute or AttributeEnd exactly when the context before the call is
Attributes, and the context after the call is Attributes exactly when the token
is OpenTag or Attribute.  A call that does not succeed keeps the context in or
out of Attributes. -/
theorem BxDocumentNext_token_mode (cs m : Bool) (doc : BxDocument) :
    ((BxDocumentNext cs m doc).status = BX_STATUS_SUCCESS →
      ∃ t, (BxDocumentNext cs m doc).type = some t ∧
        (AttribToken t ↔ doc.context = BX_CONTEXT_ATTRIBS) ∧
        ((BxDocumentNext cs m doc).doc.context = BX_CONTEXT_ATTRIBS ↔
          OpensAttribs (some t))) ∧
    ((BxDocumentNext cs m doc).status ≠ BX_STATUS_SUCCESS →
      ((BxDocumentNext cs m doc).doc.context = BX_CONTEXT_ATTRIBS ↔
        doc.context = BX_CONTEXT_ATTRIBS)) := by
  obtain ⟨hmA, hmO⟩ := BxDocumentNext_mode cs m doc
  by_cases hA : doc.context = BX_CONTEXT_ATTRIBS
  · rcases hmA hA with h | h | h
    · refine ⟨fun _ => ⟨_, h.2.1, ?_, ?_⟩, fun hn => absurd h.1 hn⟩
      · exact ⟨fun _ => hA, fun _ => Or.inr rfl⟩
      · rw [h.2.2]
        simp +decide [OpensAttribs]
    · refine ⟨fun _ => ⟨_, h.2.1, ?_, ?_⟩, fun hn => absurd h.1 hn⟩
      · exact ⟨fun _ => hA, fun _ => Or.inl rfl⟩
      · rw [h.2.2]
        simp +decide [OpensAttribs]
    · refine ⟨fun hs => absurd hs h.1, fun _ => ?_⟩
      rw [h.2.2, hA]
  · have hout : ∀ a : Int, ((a = doc.context ∧ True) ∨
        (doc.context = BX_CONTEXT_NONE ∧ a = BX_CONTEXT_OUTERMOST)) → a ≠ BX_CONTEXT_ATTRIBS := by
      intro a h
      rcases h with h | h
      · rw [h.1]; exact hA
      · rw [h.2]; decide
    rcases hmO hA with h | h
    · refine ⟨fun _ => ⟨_, h.2.1, ?_, ?_⟩, fun hn => absurd h.1 hn⟩
      · simp +decide [AttribToken, hA]
      · rw [h.2.2.1]
        simp +decide [OpensAttribs]
    · have hctx : (BxDocumentNext cs m doc).doc.context ≠ BX_CONTEXT_ATTRIBS := by
        apply hout
        rcases h.2.2 with h3 | h3
        · exact Or.inl ⟨h3.1, trivial⟩
        · exact Or.inr ⟨h3.1, h3.2.2⟩
      refine ⟨fun hs => ?_, fun _ => ⟨fun h2 => absurd h2 hctx, fun h2 => absurd h2 hA⟩⟩
      rcases h.1 hs with h3 | h3 | h3 | h3 <;>
        exact ⟨_, h3, by simp +decide [AttribToken, hA], by simp +decide [OpensAttribs, hctx]⟩

/-- The tokens of any sequence of calls follow the mode: started in a context
that is Attributes exactly when the previous token opened attributes, the token
types form a `ModeTrace`. -/
theorem modeTrace_calls (cs : Bool) :
    ∀ (ms : List Bool) (doc : BxDocument) (prev : Option Int),
      (doc.context = BX_CONTEXT_ATTRIBS ↔ OpensAttribs prev) →
      ModeTrace prev (tokenTypes (BxDocumentNext_calls cs ms doc)) := by
  intro ms
  induction ms with
  | nil => intro doc prev _; trivial
  | cons m ms ih =>
    intro doc prev hinv
    obtain ⟨hs, hf⟩ := BxDocumentNext_token_mode cs m doc
    by_cases hst : (BxDocumentNext cs m doc).status = BX_STATUS_SUCCESS
    · obtain ⟨t, ht, h1, h2⟩ := hs hst
      have htok : (BxDocumentNext cs m doc).token = some t := by
        simp [BxOut.token, hst, ht]
      simp only [BxDocumentNext_calls, tokenTypes, List.filterMap_cons, htok]
      exact ⟨h1.trans hinv, ih _ (some t) h2⟩
    · have htok : (BxDocumentNext cs m doc).token = none := by
        simp [BxOut.token, hst]
      simp only [BxDocumentNext_calls, tokenTypes, List.filterMap_cons, htok]
      exact ih _ prev ((hf hst).trans hinv)

/-- In a `ModeTrace`, an Attribute or AttributeEnd token has an OpenTag before it
with only Attribute tokens in between, unless the trace started inside an
attribute list and only Attribute tokens precede it. -/
theorem modeTrace_preceded :
    ∀ (ts : List Int) (prev : Option Int), ModeTrace prev ts →
      ∀ (j : Nat) (t : Int), ts[j]? = some t → AttribToken t →
        (∃ i, i < j ∧ ts[i]? = some BX_TYPE_TAG ∧
          ∀ k, i < k → k < j → ts[k]? = some BX_TYPE_ATTRIB) ∨
        (OpensAttribs prev ∧ ∀ k, k < j → ts[k]? = some BX_TYPE_ATTRIB) := by
  intro ts
  induction ts with
  | nil => intro prev _ j t h; simp at h
  | cons t0 rest ih =>
    intro prev htr j t hj hat
    cases j with
    | zero =>
      simp only [List.getElem?_cons_zero, Option.some.injEq] at hj
      subst hj
      right
      exact ⟨htr.1.1 hat, fun k hk => absurd hk (Nat.not_lt_zero k)⟩
    | succ j =>
      simp only [List.getElem?_cons_succ] at hj
      rcases ih (some t0) htr.2 j t hj hat with ⟨i, hi, htag, hbetween⟩ | ⟨hopen, hall⟩
      · left
        refine ⟨i + 1, by omega, by simpa using htag, ?_⟩
        intro k h1 h2
        obtain ⟨k', rfl⟩ : ∃ k', k = k' + 1 := ⟨k - 1, by omega⟩
        simpa using hbetween k' (by omega) (by omega)
      · have hshift : ∀ k, 0 < k → k < j + 1 → (t0 :: rest)[k]? = some BX_TYPE_ATTRIB := by
          intro k h1 h2
          obtain ⟨k', rfl⟩ : ∃ k', k = k' + 1 := ⟨k - 1, by omega⟩
          simpa using hall k' (by omega)
        rcases hopen with h | h
        · left
          refine ⟨0, by omega, ?_, hshift⟩
          simp only [Option.some.injEq] at h
          simp [h]
        · right
          simp only [Option.some.injEq] at h
          refine ⟨htr.1.1 (Or.inl h), ?_⟩
          intro k hk
          cases k with
          | zero => simp [h]
          | succ k' => exact hshift (k' + 1) (by omega) hk

/-- In a `ModeTrace`, the token after an OpenTag or an Attribute is Attribute or
AttributeEnd. -/
theorem modeTrace_followed :
    ∀ (ts : List Int) (prev : Option Int), ModeTrace prev ts →
      ∀ (j : Nat) (t u : Int), ts[j]? = some t →
        (t = BX_TYPE_TAG ∨ t = BX_TYPE_ATTRIB) → ts[j + 1]? = some u → AttribToken u := by
  intro ts
  induction ts with
  | nil => intro prev _ j t u h; simp at h
  | cons t0 rest ih =>
    intro prev htr j t u hj ht hu
    cases j with
    | zero =>
      simp only [List.getElem?_cons_zero, Option.some.injEq] at hj
      subst hj
      simp only [Nat.zero_add, List.getElem?_cons_succ] at hu
      cases rest with
      | nil => simp at hu
      | cons u0 rest2 =>
        simp only [List.getElem?_cons_zero, Option.some.injEq] at hu
        subst hu
        apply htr.2.1.2
        rcases ht with h | h
        · exact Or.inl (by rw [h])
        · exact Or.inr (by rw [h])
    | succ j =>
      simp only [List.getElem?_cons_succ] at hj hu
      exact ih (some t0) htr.2 j t u hj ht hu

/-- From a session that is not in the resume-misuse state, every call advances
the cursor: the cursors at the start of the successive calls are at least the
first one, strictly increasing, and fewer than `limit - head` of them, or as
many, are below `limit`. -/
theorem cursors_increasing (cs : Bool) (limit : Nat) :
    ∀ (ms : List Bool) (doc : BxDocument), (doc.context = BX_CONTEXT_NONE → doc.head = 0) →
      (∀ c ∈ BxDocumentNext_cursors cs ms doc, doc.head ≤ c) ∧
      List.Pairwise (fun a b => a < b) (BxDocumentNext_cursors cs ms doc) ∧
      (BxDocumentNext_cursors cs ms doc).countP (fun c => decide (c < limit))
        ≤ limit - doc.head := by
  intro ms
  induction ms with
  | nil =>
    intro doc _
    simp [BxDocumentNext_cursors]
  | cons m ms ih =>
    intro doc hinv
    have hlt : doc.head < (BxDocumentNext cs m doc).doc.head :=
      (BxDocumentNext_head cs m doc).2.1 (fun h => h.2 (hinv h.1))
    have hinv2 : (BxDocumentNext cs m doc).doc.context = BX_CONTEXT_NONE →
        (BxDocumentNext cs m doc).doc.head = 0 := by
      intro hN
      exfalso
      obtain ⟨hmA, hmO⟩ := BxDocumentNext_mode cs m doc
      by_cases hA : doc.context = BX_CONTEXT_ATTRIBS
      · rcases hmA hA with h | h | h <;> rw [h.2.2] at hN <;> exact absurd hN (by decide)
      · rcases hmO hA with h | h
        · rw [h.2.2.1] at hN; exact absurd hN (by decide)
        · rcases h.2.2 with h3 | h3
          · rcases h3.2 with h4 | h4
            · rw [h4] at hlt; exact absurd hlt (Nat.lt_irrefl _)
            · rw [h3.1] at hN; exact h4 hN
          · rw [h3.2.2] at hN; exact absurd hN (by decide)
    obtain ⟨i1, i2, i3⟩ := ih (BxDocumentNext cs m doc).doc hinv2
    refine ⟨?_, ?_, ?_⟩
    · intro c hc
      simp only [BxDocumentNext_cursors, List.mem_cons] at hc
      rcases hc with rfl | hc
      · exact Nat.le_refl _
      · have := i1 c hc
        omega
    · simp only [BxDocumentNext_cursors, List.pairwise_cons]
      refine ⟨?_, i2⟩
      intro c hc
      have := i1 c hc
      omega
    · simp only [BxDocumentNext_cursors, List.countP_cons]
      by_cases hl : doc.head < limit
      · simp only [hl, decide_True, if_true]
        omega
      · simp only [hl, decide_False]
        simp only [Bool.false_eq_true, if_false]
        omega

/-! ## Locality of a call -/

/-- The string view at `off` when the scan from `off` stops at `e` inside the
buffer: the bytes of `[off, e)`. -/
theorem cString_scan (content : Nat → Byte) (limit off e : Nat)
    (h : ScanStops content limit off e) (he : e < limit) :
    cString content off limit = (List.range' off (e - off)).map content := by
  obtain ⟨h1, h2, h3⟩ := h
  have h0 : content e = 0 := by
    rcases h3 with h | h
    · exact h
    · omega
  apply cString_run content limit (e - off) off
  · intro i hi
    exact (h2 (off + i) (by omega) (by omega)).1
  · rw [show off + (e - off) = e by omega]
    exact h0
  · omega

/-- The string view is the same in two memories that agree on the offsets of a
scan that stops inside the buffer, the stopping offset included. -/
theorem cString_congr_scan (c1 c2 : Nat → Byte) (limit off e : Nat)
    (h : ScanStops c1 limit off e) (he : e < limit)
    (hagree : ∀ i, off ≤ i → i ≤ e → c1 i = c2 i) :
    cString c2 off limit = cString c1 off limit := by
  rw [cString_scan c1 limit off e h he,
    cString_scan c2 limit off e (scanStops_congr c1 c2 limit off e h he hagree) he]
  apply List.map_congr_left
  intro i hi
  rw [List.mem_range'_1] at hi
  exact (hagree i hi.1 (by omega)).symm

/-! ## Claims -/

/-- C1 (as stated, refuted).  On the spec's buffer
`0x01 "a" 0x00 0x01 "k" 0x00 "v" 0x00 0x00 0x03 "hi" 0x00 0xFF`, when `malloc`
returns `NULL` the second call returns `BX_STATUS_FAILURE` instead of the token
`Attribute("k","v")`. -/
theorem C1_roundtrip_counterexample :
    encodeDocument specTokens = [1, 97, 0, 1, 107, 0, 118, 0, 0, 3, 104, 105, 0, 255] ∧
    (∀ t ∈ specTokens, t.NulFree) ∧
    (BxDocumentNext false false (loadEncoded 0 specTokens)).status = BX_STATUS_SUCCESS ∧
    (BxDocumentNext false false (loadEncoded 0 specTokens)).event = some (Event.OpenTag [97]) ∧
    (BxDocumentNext false false (BxDocumentNext false false (loadEncoded 0 specTokens)).doc).status
      = BX_STATUS_FAILURE ∧
    (BxDocumentNext false false (BxDocumentNext false false (loadEncoded 0 specTokens)).doc).event
      = none := by
  refine ⟨by decide, ?_, ?_, ?_, ?_, ?_⟩
  · set_option maxRecDepth 4096 in decide
  all_goals
    simp +decide [BxDocumentNext, BxDocumentNext_switch, BxDocumentNextAttr, BxDocumentReadString,
      BxDocumentReadString_loop, BxDocumentLoadFromMemory, loadEncoded, memOf, charValue,
      encodeDocument, encodeTokens, encodeToken, encodeAttribs, specTokens, BxOut.event,
      cString, cStringAux]

/-- C1 (amended).  Decoding undoes encoding.  For every list of tokens whose
strings contain no NUL byte, load the wire encoding followed by `0xFF`.  When
every allocation of an attribute record succeeds, the successive
`BxDocumentNext` calls, one per token, attribute and attribute-end marker, all
return `BX_STATUS_SUCCESS` and yield exactly those tokens in order, each OpenTag
followed by its Attribute tokens and one AttributeEnd; the session is then in
Outermost mode with the cursor on the final `0xFF`.  Where plain `char` is
unsigned, one more call returns Eof and leaves the cursor equal to the length
of the buffer. -/
theorem C1_roundtrip (charSigned : Bool) (pad : Byte) (toks : List Token)
    (hnul : ∀ t ∈ toks, t.NulFree) :
    ((BxDocumentNext_repeat charSigned true (tokensEvents toks).length
        (loadEncoded pad toks)).map (fun r => r.status)
      = List.replicate (tokensEvents toks).length BX_STATUS_SUCCESS ∧
     (BxDocumentNext_repeat charSigned true (tokensEvents toks).length
        (loadEncoded pad toks)).map BxOut.event
      = (tokensEvents toks).map some ∧
     OutermostMode (BxDocumentNext_iterate charSigned true (tokensEvents toks).length
        (loadEncoded pad toks)) ∧
     (BxDocumentNext_iterate charSigned true (tokensEvents toks).length
        (loadEncoded pad toks)).head + 1 = (encodeDocument toks).length) ∧
    (charSigned = false →
      (BxDocumentNext_repeat charSigned true ((tokensEvents toks).length + 1)
          (loadEncoded pad toks)).map (fun r => r.status)
        = List.replicate ((tokensEvents toks).length + 1) BX_STATUS_SUCCESS ∧
      (BxDocumentNext_repeat charSigned true ((tokensEvents toks).length + 1)
          (loadEncoded pad toks)).map BxOut.event
        = (tokensEvents toks ++ [Event.Eof]).map some ∧
      (BxDocumentNext_iterate charSigned true ((tokensEvents toks).length + 1)
          (loadEncoded pad toks)).head = (encodeDocument toks).length) := by
  obtain ⟨l1, l2, l3, l4, l5⟩ := loadEncoded_spec pad toks
  obtain ⟨doc2, d1, d2, d3, d4, d5⟩ := decodes_tokens charSigned toks (loadEncoded pad toks) hnul
    l1 (by rw [l2]; exact l4) (by rw [l2, l3]; omega)
  rw [l2, Nat.zero_add] at d3
  obtain ⟨r1, r2, r3⟩ := decodes_repeat charSigned true _ _ _ d1
  have hlen : (encodeDocument toks).length = (encodeTokens toks).length + 1 := by
    simp [encodeDocument]
  refine ⟨⟨r1, r2, ?_, ?_⟩, ?_⟩
  · rw [r3]; exact d2
  · rw [r3, d3, hlen]
  · intro hcs
    subst hcs
    have hb : doc2.content doc2.head = 255 := by rw [d5, d3]; exact l5
    obtain ⟨e1, e2, e3, e4, -⟩ := eof_byte_unsigned_char true doc2 d2 hb
    have hdec : Decodes false true doc2 [Event.Eof] (BxDocumentNext false true doc2).doc := by
      refine ⟨e1, ?_, rfl⟩
      simp +decide [BxOut.event, e2, e3]
    have hall := decodes_append false true _ _ _ _ _ d1 hdec
    obtain ⟨s1, s2, s3⟩ := decodes_repeat false true _ _ _ hall
    simp only [List.length_append, List.length_singleton] at s1 s2 s3
    refine ⟨s1, s2, ?_⟩
    rw [s3, e4, d3, hlen]

/-- Witness of C1 (amended): the spec's two buffers, with plain `char` unsigned
and successful allocations. -/
theorem C1_roundtrip_witness :
    (encodeDocument specTokens = [1, 97, 0, 1, 107, 0, 118, 0, 0, 3, 104, 105, 0, 255] ∧
     (BxDocumentNext_repeat false true 5 (loadEncoded 0 specTokens)).map (fun r => r.status)
        = [BX_STATUS_SUCCESS, BX_STATUS_SUCCESS, BX_STATUS_SUCCESS, BX_STATUS_SUCCESS,
           BX_STATUS_SUCCESS] ∧
     (BxDocumentNext_repeat false true 5 (loadEncoded 0 specTokens)).map BxOut.event
        = [some (Event.OpenTag [97]), some (Event.Attribute [107] [118]),
           some Event.AttributeEnd, some (Event.Text [104, 105]), some Event.Eof] ∧
     (BxDocumentNext_iterate false true 5 (loadEncoded 0 specTokens)).head = 14) ∧
    (encodeDocument emptyAttribTokens = [1, 120, 0, 0, 255] ∧
     (BxDocumentNext_repeat false true 3 (loadEncoded 0 emptyAttribTokens)).map BxOut.event
        = [some (Event.OpenTag [120]), some Event.AttributeEnd, some Event.Eof] ∧
     (BxDocumentNext_iterate false true 3 (loadEncoded 0 emptyAttribTokens)).head = 5) := by
  have h1 := (C1_roundtrip false 0 specTokens
    (by set_option maxRecDepth 4096 in decide)).2 rfl
  have h2 := (C1_roundtrip false 0 emptyAttribTokens
    (by set_option maxRecDepth 4096 in decide)).2 rfl
  exact ⟨⟨by decide, h1.1, h1.2.1, h1.2.2⟩, ⟨by decide, h2.2.1, h2.2.2⟩⟩


/-- C2. String-bearing token step.  In Outermost mode (or freshly loaded), with
the cursor `c` inside the buffer on a tag byte `t` in `0x00 .. 0x03` that is
followed by `n` non-NUL bytes and a NUL at `c + 1 + n < length`, the call
`BxDocumentNext` returns `BX_STATUS_SUCCESS`, stores the type `t`, stores the
pointer to offset `c + 1`, whose string view is exactly the `n` bytes before the
NUL, and leaves the cursor at `c + n + 2`, just past the NUL. -/
theorem C2_string_token_step (charSigned mallocOk : Bool) (doc : BxDocument) (t : Byte) (n : Nat)
    (hmode : OutermostMode doc)
    (hc : doc.head < doc.length)
    (ht : doc.content doc.head = t) (htag : t.val ≤ 3)
    (hrun : ∀ i, i < n → doc.content (doc.head + 1 + i) ≠ 0)
    (hnul : doc.content (doc.head + 1 + n) = 0)
    (hin : doc.head + 1 + n < doc.length) :
    (BxDocumentNext charSigned mallocOk doc).status = BX_STATUS_SUCCESS ∧
    (BxDocumentNext charSigned mallocOk doc).type = some (t.val : Int) ∧
    (BxDocumentNext charSigned mallocOk doc).data = some (BxData.string (doc.head + 1)) ∧
    cString doc.content (doc.head + 1) doc.length
      = (List.range' (doc.head + 1) n).map doc.content ∧
    (cString doc.content (doc.head + 1) doc.length).length = n ∧
    (BxDocumentNext charSigned mallocOk doc).doc.head = doc.head + n + 2 := by
  have _ := hc
  subst ht
  rw [BxDocumentNext_of_outermost charSigned mallocOk doc hmode]
  obtain ⟨h1, h2, h3, h4, -⟩ := BxDocumentNext_switch_string charSigned
    { doc with context := BX_CONTEXT_OUTERMOST } n htag hrun (by simp only; omega) (Or.inl hnul)
  have hview := cString_run doc.content doc.length n (doc.head + 1) hrun hnul hin
  refine ⟨h1, h2, h3, hview, ?_, h4⟩
  rw [hview]
  simp

/-- Witness of C2: the buffer `0x03 "hi" 0x00 0xFF`, freshly loaded. -/
theorem C2_string_token_step_witness :
    (BxDocumentNext false true (BxDocumentLoadFromMemory 5 (memOf [3, 104, 105, 0, 255] 0)).2).status
        = BX_STATUS_SUCCESS ∧
    (BxDocumentNext false true (BxDocumentLoadFromMemory 5 (memOf [3, 104, 105, 0, 255] 0)).2).type
        = some 3 ∧
    (BxDocumentNext false true (BxDocumentLoadFromMemory 5 (memOf [3, 104, 105, 0, 255] 0)).2).data
        = some (BxData.string 1) ∧
    cString (memOf [3, 104, 105, 0, 255] 0) 1 5 = [104, 105] ∧
    (BxDocumentNext false true
        (BxDocumentLoadFromMemory 5 (memOf [3, 104, 105, 0, 255] 0)).2).doc.head = 4 := by
  obtain ⟨h1, h2, h3, h4, -, h6⟩ := C2_string_token_step false true
    (BxDocumentLoadFromMemory 5 (memOf [3, 104, 105, 0, 255] 0)).2 3 2
    (by decide) (by decide) (by decide) (by decide)
    (by intro i hi; interval_cases i <;> decide) (by decide) (by decide)
  exact ⟨h1, h2, h3, h4, h6⟩

/-- C3 (as stated, refuted).  On the attribute record `0x01 "k" 0x00 "v" 0x00`
in Attributes mode, every premise of the claim holds, and when `malloc` returns
`NULL` the call returns `BX_STATUS_FAILURE`, not `BX_STATUS_SUCCESS`, stores no
data and leaves the cursor at 1, not 5. -/
theorem C3_attribute_step_counterexample :
    attribRecordDoc.context = BX_CONTEXT_ATTRIBS ∧
    attribRecordDoc.head < attribRecordDoc.length ∧
    attribRecordDoc.content attribRecordDoc.head = 1 ∧
    attribRecordDoc.content 1 ≠ 0 ∧ attribRecordDoc.content 2 = 0 ∧
    attribRecordDoc.content 3 ≠ 0 ∧ attribRecordDoc.content 4 = 0 ∧
    attribRecordDoc.head + 1 + 1 + 3 ≤ attribRecordDoc.length ∧
    (BxDocumentNext false false attribRecordDoc).status = BX_STATUS_FAILURE ∧
    (BxDocumentNext false false attribRecordDoc).status ≠ BX_STATUS_SUCCESS ∧
    (BxDocumentNext false false attribRecordDoc).data = none ∧
    (BxDocumentNext false false attribRecordDoc).doc.head = 1 := by
  simp +decide [BxDocumentNext, BxDocumentNextAttr, attribRecordDoc, memOf, charValue]

/-- C3 (amended).  Attribute step.  In Attributes mode, with the cursor `c`
inside the buffer on the byte `0x01`, followed by a NUL-free key of `k` bytes, a
NUL, a NUL-free value of `v` bytes and a NUL, all inside the buffer: when the
allocation of the attribute record succeeds, `BxDocumentNext` returns
`BX_STATUS_SUCCESS` with type `BX_TYPE_ATTRIB`, key pointer `c + 1` (view of
`k` bytes) and value pointer `c + k + 2` (view of `v` bytes), cursor
`c + k + v + 3`, mode still Attributes; when the allocation fails it returns
`BX_STATUS_FAILURE` with the type stored, no data stored, cursor `c + 1`, mode
still Attributes. -/
theorem C3_attribute_step (charSigned mallocOk : Bool) (doc : BxDocument) (k v : Nat)
    (hmode : doc.context = BX_CONTEXT_ATTRIBS)
    (hc : doc.head < doc.length)
    (htag : doc.content doc.head = 1)
    (hkey : ∀ i, i < k → doc.content (doc.head + 1 + i) ≠ 0)
    (hknul : doc.content (doc.head + 1 + k) = 0)
    (hval : ∀ i, i < v → doc.content (doc.head + k + 2 + i) ≠ 0)
    (hvnul : doc.content (doc.head + k + 2 + v) = 0)
    (hin : doc.head + k + v + 3 ≤ doc.length) :
    (mallocOk = true →
      (BxDocumentNext charSigned mallocOk doc).status = BX_STATUS_SUCCESS ∧
      (BxDocumentNext charSigned mallocOk doc).type = some BX_TYPE_ATTRIB ∧
      (BxDocumentNext charSigned mallocOk doc).data
        = some (BxData.attrib (doc.head + 1) (doc.head + k + 2)) ∧
      cString doc.content (doc.head + 1) doc.length
        = (List.range' (doc.head + 1) k).map doc.content ∧
      (cString doc.content (doc.head + 1) doc.length).length = k ∧
      cString doc.content (doc.head + k + 2) doc.length
        = (List.range' (doc.head + k + 2) v).map doc.content ∧
      (cString doc.content (doc.head + k + 2) doc.length).length = v ∧
      (BxDocumentNext charSigned mallocOk doc).doc.head = doc.head + k + v + 3 ∧
      (BxDocumentNext charSigned mallocOk doc).doc.context = BX_CONTEXT_ATTRIBS) ∧
    (mallocOk = false →
      (BxDocumentNext charSigned mallocOk doc).status = BX_STATUS_FAILURE ∧
      (BxDocumentNext charSigned mallocOk doc).type = some BX_TYPE_ATTRIB ∧
      (BxDocumentNext charSigned mallocOk doc).data = none ∧
      (BxDocumentNext charSigned mallocOk doc).doc.head = doc.head + 1 ∧
      (BxDocumentNext charSigned mallocOk doc).doc.context = BX_CONTEXT_ATTRIBS) := by
  have _ := hc
  rw [BxDocumentNext_of_attribs charSigned mallocOk doc hmode]
  obtain ⟨len, content, head, context⟩ := doc
  simp only at hmode hkey hknul hval hvnul hin htag ⊢
  subst hmode
  have hcv : charValue charSigned (content head) = 1 := by
    rw [htag]; exact charValue_of_lt charSigned 1 (by decide)
  constructor
  · intro hm
    subst hm
    obtain ⟨ks, kd, -⟩ := BxDocumentReadString_run charSigned
      { length := len, content := content, head := head + 1, context := BX_CONTEXT_ATTRIBS } k
      hkey (by simp only; omega) (Or.inl hknul)
    have hval2 : ∀ i, i < v → content (head + 1 + k + 1 + i) ≠ 0 := by
      intro i hi
      rw [show head + 1 + k + 1 + i = head + k + 2 + i by omega]
      exact hval i hi
    have hvnul2 : content (head + 1 + k + 1 + v) = 0 := by
      rw [show head + 1 + k + 1 + v = head + k + 2 + v by omega]
      exact hvnul
    obtain ⟨vs, vd, -⟩ := BxDocumentReadString_run charSigned
      { length := len, content := content, head := head + 1 + k + 1,
        context := BX_CONTEXT_ATTRIBS } v hval2 (by simp only; omega) (Or.inl hvnul2)
    simp only at ks kd vs vd
    have hkview := cString_run content len k (head + 1) hkey hknul (by omega)
    have hvview := cString_run content len v (head + k + 2) hval hvnul (by omega)
    refine ⟨?_, ?_, ?_, hkview, by rw [hkview]; simp, hvview, by rw [hvview]; simp, ?_, ?_⟩ <;>
      simp [BxDocumentNextAttr, hcv, ks, kd, vs, vd] <;> omega
  · intro hm
    subst hm
    simp [BxDocumentNextAttr, hcv]

/-- Witness of C3 (amended): the attribute record `0x01 "k" 0x00 "v" 0x00` with
a successful allocation. -/
theorem C3_attribute_step_witness :
    (BxDocumentNext false true attribRecordDoc).status = BX_STATUS_SUCCESS ∧
    (BxDocumentNext false true attribRecordDoc).type = some BX_TYPE_ATTRIB ∧
    (BxDocumentNext false true attribRecordDoc).data = some (BxData.attrib 1 3) ∧
    cString attribRecordDoc.content 1 5 = [107] ∧
    cString attribRecordDoc.content 3 5 = [118] ∧
    (BxDocumentNext false true attribRecordDoc).doc.head = 5 ∧
    (BxDocumentNext false true attribRecordDoc).doc.context = BX_CONTEXT_ATTRIBS := by
  obtain ⟨h1, h2, h3, h4, -, h6, -, h8, h9⟩ :=
    (C3_attribute_step false true attribRecordDoc 1 1 (by decide) (by decide) (by decide)
      (by intro i hi; interval_cases i; decide) (by decide)
      (by intro i hi; interval_cases i; decide) (by decide) (by decide)).1 rfl
  exact ⟨h1, h2, h3, h4, h6, h8, h9⟩

/-- C4 (failing input).  Where plain `char` is signed, the freshly loaded
one-byte buffer `0xFF` does not yield Eof: `current` is `-1`, no case label of
the `switch` matches, and the call returns `BX_STATUS_BAD_DOCUMENT` without
storing a type or data. -/
theorem C4_eof_byte_signed_char :
    ((BxDocumentLoadFromMemory 1 (memOf [255] 0)).2).content 0 = 255 ∧
    charValue true 255 = -1 ∧
    (BxDocumentNext true true (BxDocumentLoadFromMemory 1 (memOf [255] 0)).2).status
      = BX_STATUS_BAD_DOCUMENT ∧
    (BxDocumentNext true true (BxDocumentLoadFromMemory 1 (memOf [255] 0)).2).type = none ∧
    (BxDocumentNext true true (BxDocumentLoadFromMemory 1 (memOf [255] 0)).2).data = none := by
  simp +decide [BxDocumentNext, BxDocumentNext_switch, BxDocumentLoadFromMemory, memOf, charValue]

/-- C5 (failing input).  Where plain `char` is signed, the byte `0xFF` in
Outermost mode is rejected with `BX_STATUS_BAD_DOCUMENT`, although it is one of
`0x00, 0x01, 0x02, 0x03, 0xFF`. -/
theorem C5_malformed_outermost_signed_char :
    OutermostMode atEofDoc ∧ atEofDoc.head < atEofDoc.length ∧
    atEofDoc.content atEofDoc.head = 255 ∧
    (BxDocumentNext true true atEofDoc).status = BX_STATUS_BAD_DOCUMENT := by
  simp +decide [BxDocumentNext, BxDocumentNext_switch, atEofDoc, memOf, charValue, OutermostMode]

/-- C6. Malformed-byte rejection in Attributes mode.  In Attributes mode with an
in-bounds cursor, `BxDocumentNext` returns `BX_STATUS_BAD_DOCUMENT` if and only
if the byte at the cursor is neither `0x00` nor `0x01` (whether or not the
allocation succeeds); it then stores neither type nor data.  In particular the
bytes `0x02`, `0x03` and `0xFF` are rejected. -/
theorem C6_malformed_attribs (charSigned mallocOk : Bool) (doc : BxDocument)
    (hmode : doc.context = BX_CONTEXT_ATTRIBS) (hc : doc.head < doc.length) :
    ((BxDocumentNext charSigned mallocOk doc).status = BX_STATUS_BAD_DOCUMENT ↔
      (doc.content doc.head ≠ 0 ∧ doc.content doc.head ≠ 1)) ∧
    ((BxDocumentNext charSigned mallocOk doc).status = BX_STATUS_BAD_DOCUMENT →
      (BxDocumentNext charSigned mallocOk doc).type = none ∧
      (BxDocumentNext charSigned mallocOk doc).data = none) ∧
    ((doc.content doc.head = 2 ∨ doc.content doc.head = 3 ∨ doc.content doc.head = 255) →
      (BxDocumentNext charSigned mallocOk doc).status = BX_STATUS_BAD_DOCUMENT) := by
  have _ := hc
  rw [BxDocumentNext_of_attribs charSigned mallocOk doc hmode]
  have hiff : (BxDocumentNextAttr charSigned mallocOk doc).status = BX_STATUS_BAD_DOCUMENT ↔
      (doc.content doc.head ≠ 0 ∧ doc.content doc.head ≠ 1) := by
    rw [BxDocumentNextAttr_status]
    split_ifs with h0 h1 hm <;> simp_all
  refine ⟨hiff, ?_, ?_⟩
  · intro h
    obtain ⟨h1, h2, -⟩ := BxDocumentNextAttr_bad charSigned mallocOk doc h
    exact ⟨h1, h2⟩
  · intro h
    apply hiff.2
    rcases h with h | h | h <;> rw [h] <;> decide

/-- Witness of C6: the byte `0x02` met in Attributes mode. -/
theorem C6_malformed_attribs_witness :
    (BxDocumentNext false true endTagInAttribsDoc).status = BX_STATUS_BAD_DOCUMENT ∧
    (BxDocumentNext false true endTagInAttribsDoc).type = none ∧
    (BxDocumentNext false true endTagInAttribsDoc).data = none := by
  have h := C6_malformed_attribs false true endTagInAttribsDoc (by decide) (by decide)
  have hs := h.2.2 (Or.inl (by decide))
  exact ⟨hs, h.2.1 hs⟩

/-- C7 (as stated, refuted).  On the buffer `0xFF 0x03 "h" 0x00`, where plain
`char` is unsigned, the first call returns Eof and the second call returns
`BX_STATUS_SUCCESS` with the token Text at offset 2. -/
theorem C7_after_eof_counterexample :
    (BxDocumentNext false true eofThenTextDoc).status = BX_STATUS_SUCCESS ∧
    (BxDocumentNext false true eofThenTextDoc).type = some BX_TYPE_EOF ∧
    (BxDocumentNext false true (BxDocumentNext false true eofThenTextDoc).doc).status
      = BX_STATUS_SUCCESS ∧
    (BxDocumentNext false true (BxDocumentNext false true eofThenTextDoc).doc).type
      = some BX_TYPE_TEXT ∧
    (BxDocumentNext false true (BxDocumentNext false true eofThenTextDoc).doc).data
      = some (BxData.string 2) ∧
    cString eofThenTextDoc.content 2 eofThenTextDoc.length = [104] := by
  simp +decide [BxDocumentNext, BxDocumentNext_switch, BxDocumentReadString,
    BxDocumentReadString_loop, BxDocumentLoadFromMemory, eofThenTextDoc, memOf, charValue,
    cString, cStringAux]

/-- C7 (amended).  A call that returns the Eof token leaves the cursor one past
the `0xFF` byte and a context that is neither Attributes nor None; the session
is not closed.  The next call is decoded from the following byte with the
Outermost grammar: it returns an error status if and only if that byte is not
one of `0x00, 0x01, 0x02, 0x03, 0xFF`, the error is `BX_STATUS_BAD_DOCUMENT`, and
then no type or data is stored. -/
theorem C7_after_eof (charSigned mallocOk mallocOk2 : Bool) (doc : BxDocument)
    (hs : (BxDocumentNext charSigned mallocOk doc).status = BX_STATUS_SUCCESS)
    (ht : (BxDocumentNext charSigned mallocOk doc).type = some BX_TYPE_EOF) :
    (BxDocumentNext charSigned mallocOk doc).doc.head = doc.head + 1 ∧
    (BxDocumentNext charSigned mallocOk doc).doc.context ≠ BX_CONTEXT_ATTRIBS ∧
    (BxDocumentNext charSigned mallocOk doc).doc.context ≠ BX_CONTEXT_NONE ∧
    (OutermostMode doc →
      (BxDocumentNext charSigned mallocOk doc).doc.context = BX_CONTEXT_OUTERMOST) ∧
    ((BxDocumentNext charSigned mallocOk2 (BxDocumentNext charSigned mallocOk doc).doc).status
        ≠ BX_STATUS_SUCCESS ↔
      ¬ (doc.content (doc.head + 1) = 0 ∨ doc.content (doc.head + 1) = 1 ∨
         doc.content (doc.head + 1) = 2 ∨ doc.content (doc.head + 1) = 3 ∨
         doc.content (doc.head + 1) = 255)) ∧
    ((BxDocumentNext charSigned mallocOk2 (BxDocumentNext charSigned mallocOk doc).doc).status
        ≠ BX_STATUS_SUCCESS →
      (BxDocumentNext charSigned mallocOk2 (BxDocumentNext charSigned mallocOk doc).doc).status
        = BX_STATUS_BAD_DOCUMENT ∧
      (BxDocumentNext charSigned mallocOk2 (BxDocumentNext charSigned mallocOk doc).doc).type
        = none ∧
      (BxDocumentNext charSigned mallocOk2 (BxDocumentNext charSigned mallocOk doc).doc).data
        = none) := by
  have _ := hs
  obtain ⟨hcs, ctx, hA, hN, hO, hdoc⟩ := eof_returned charSigned mallocOk doc ht
  subst hcs
  rw [hdoc]
  simp only
  have hsw : BxDocumentNext false mallocOk2
      { length := doc.length, content := doc.content, head := doc.head + 1, context := ctx }
      = BxDocumentNext_switch false
      { length := doc.length, content := doc.content, head := doc.head + 1, context := ctx } := by
    simp [BxDocumentNext, hA, hN]
  rw [hsw]
  refine ⟨trivial, hA, hN, ?_, ?_, ?_⟩
  · intro hmode
    rcases hO with h | h
    · rcases hmode with h2 | h2
      · rw [h, h2]
      · rw [h, h2.1] at hN
        exact absurd rfl hN
    · exact h.1
  · rw [BxDocumentNext_switch_status]
    simp only [charValue_unsigned]
    have e0 : ((doc.content (doc.head + 1)).val : Int) = 0 ↔ doc.content (doc.head + 1) = 0 :=
      byte_cast_eq_iff _ 0
    have e1 : ((doc.content (doc.head + 1)).val : Int) = 1 ↔ doc.content (doc.head + 1) = 1 :=
      byte_cast_eq_iff _ 1
    have e2 : ((doc.content (doc.head + 1)).val : Int) = 2 ↔ doc.content (doc.head + 1) = 2 :=
      byte_cast_eq_iff _ 2
    have e3 : ((doc.content (doc.head + 1)).val : Int) = 3 ↔ doc.content (doc.head + 1) = 3 :=
      byte_cast_eq_iff _ 3
    have e255 : ((doc.content (doc.head + 1)).val : Int) = 255 ↔
        doc.content (doc.head + 1) = 255 := byte_cast_eq_iff _ 255
    simp only [e0, e1, e2, e3, e255]
    split_ifs with h
    · simp [h]
    · simp [h]
  · intro hne
    have hbad : (BxDocumentNext_switch false
        { length := doc.length, content := doc.content, head := doc.head + 1,
          context := ctx }).status = BX_STATUS_BAD_DOCUMENT := by
      rw [BxDocumentNext_switch_status] at hne ⊢
      split_ifs at hne ⊢ with h
      · exact absurd rfl hne
      · rfl
    obtain ⟨h1, h2, -⟩ := BxDocumentNext_switch_bad false _ hbad
    exact ⟨hbad, h1, h2⟩

/-- Witness of C7 (amended): on the buffer `0xFF 0x7F` the first call returns
Eof and the second call returns `BX_STATUS_BAD_DOCUMENT` with no token. -/
theorem C7_after_eof_witness :
    (BxDocumentNext false true eofThenJunkDoc).status = BX_STATUS_SUCCESS ∧
    (BxDocumentNext false true eofThenJunkDoc).type = some BX_TYPE_EOF ∧
    (BxDocumentNext false true (BxDocumentNext false true eofThenJunkDoc).doc).status
      = BX_STATUS_BAD_DOCUMENT ∧
    (BxDocumentNext false true (BxDocumentNext false true eofThenJunkDoc).doc).type = none ∧
    (BxDocumentNext false true (BxDocumentNext false true eofThenJunkDoc).doc).data = none := by
  have hs : (BxDocumentNext false true eofThenJunkDoc).status = BX_STATUS_SUCCESS := by
    simp +decide [BxDocumentNext, BxDocumentNext_switch, BxDocumentLoadFromMemory,
      eofThenJunkDoc, memOf, charValue]
  have ht : (BxDocumentNext false true eofThenJunkDoc).type = some BX_TYPE_EOF := by
    simp +decide [BxDocumentNext, BxDocumentNext_switch, BxDocumentLoadFromMemory,
      eofThenJunkDoc, memOf, charValue]
  have h := C7_after_eof false true true eofThenJunkDoc hs ht
  exact ⟨hs, ht, h.2.2.2.2.2 (h.2.2.2.2.1.2 (by decide))⟩

/-- C8 (as stated, refuted).  On the buffer `0x7F 0x03 "h" 0x00 0xFF` the first
call returns `BX_STATUS_BAD_DOCUMENT` and the second call returns
`BX_STATUS_SUCCESS` with the token Text at offset 2, whatever the signedness of
plain `char`. -/
theorem C8_after_bad_document_counterexample :
    (BxDocumentNext false true badThenTextDoc).status = BX_STATUS_BAD_DOCUMENT ∧
    (BxDocumentNext false true (BxDocumentNext false true badThenTextDoc).doc).status
      = BX_STATUS_SUCCESS ∧
    (BxDocumentNext false true (BxDocumentNext false true badThenTextDoc).doc).type
      = some BX_TYPE_TEXT ∧
    (BxDocumentNext false true (BxDocumentNext false true badThenTextDoc).doc).data
      = some (BxData.string 2) ∧
    cString badThenTextDoc.content 2 badThenTextDoc.length = [104] ∧
    (BxDocumentNext true true badThenTextDoc).status = BX_STATUS_BAD_DOCUMENT ∧
    (BxDocumentNext true true (BxDocumentNext true true badThenTextDoc).doc).status
      = BX_STATUS_SUCCESS ∧
    (BxDocumentNext true true (BxDocumentNext true true badThenTextDoc).doc).type
      = some BX_TYPE_TEXT := by
  simp +decide [BxDocumentNext, BxDocumentNext_switch, BxDocumentReadString,
    BxDocumentReadString_loop, BxDocumentLoadFromMemory, badThenTextDoc, memOf, charValue,
    cString, cStringAux]

/-- C8 (amended).  A call that returns `BX_STATUS_BAD_DOCUMENT` leaves the cursor
one past the rejected byte and the mode the byte was decoded under; the session
is not closed.  The next call decodes the following byte under that mode: in
Attributes mode it returns an error status if and only if that byte is not
`0x00` and is not `0x01` with a successful allocation; otherwise it returns an
error status if and only if the `char` value of that byte is none of the case
labels `0, 1, 2, 3, 0xff`. -/
theorem C8_after_bad_document (charSigned mallocOk mallocOk2 : Bool) (doc : BxDocument)
    (hb : (BxDocumentNext charSigned mallocOk doc).status = BX_STATUS_BAD_DOCUMENT) :
    (BxDocumentNext charSigned mallocOk doc).doc.head = doc.head + 1 ∧
    (doc.context = BX_CONTEXT_ATTRIBS →
      (BxDocumentNext charSigned mallocOk doc).doc.context = BX_CONTEXT_ATTRIBS ∧
      ((BxDocumentNext charSigned mallocOk2 (BxDocumentNext charSigned mallocOk doc).doc).status
          ≠ BX_STATUS_SUCCESS ↔
        ¬ (doc.content (doc.head + 1) = 0 ∨
           (doc.content (doc.head + 1) = 1 ∧ mallocOk2 = true)))) ∧
    (doc.context ≠ BX_CONTEXT_ATTRIBS →
      (BxDocumentNext charSigned mallocOk doc).doc.context ≠ BX_CONTEXT_ATTRIBS ∧
      (BxDocumentNext charSigned mallocOk doc).doc.context ≠ BX_CONTEXT_NONE ∧
      (OutermostMode doc →
        (BxDocumentNext charSigned mallocOk doc).doc.context = BX_CONTEXT_OUTERMOST) ∧
      ((BxDocumentNext charSigned mallocOk2 (BxDocumentNext charSigned mallocOk doc).doc).status
          ≠ BX_STATUS_SUCCESS ↔
        ¬ (charValue charSigned (doc.content (doc.head + 1)) = 0 ∨
           charValue charSigned (doc.content (doc.head + 1)) = 1 ∨
           charValue charSigned (doc.content (doc.head + 1)) = 2 ∨
           charValue charSigned (doc.content (doc.head + 1)) = 3 ∨
           charValue charSigned (doc.content (doc.head + 1)) = 255))) := by
  obtain ⟨ctx, hctx, hE⟩ := bad_document_returned charSigned mallocOk doc hb
  rw [hE]
  simp only
  refine ⟨trivial, ?_, ?_⟩
  · intro hA
    have hc : ctx = BX_CONTEXT_ATTRIBS := by
      rcases hctx with h | h | h
      · exact h.2
      · rw [h.1] at hA; exact absurd hA (by decide)
      · exact absurd hA h.1
    subst hc
    refine ⟨rfl, ?_⟩
    rw [BxDocumentNext_of_attribs _ _ _ rfl, BxDocumentNextAttr_status]
    simp only
    split_ifs with h0 h1 hm <;> simp_all
  · intro hA
    have hc : ctx ≠ BX_CONTEXT_ATTRIBS ∧ ctx ≠ BX_CONTEXT_NONE := by
      rcases hctx with h | h | h
      · exact absurd h.1 hA
      · rw [h.2.2]; exact ⟨by decide, by decide⟩
      · rw [h.2.2]; exact ⟨h.1, h.2.1⟩
    refine ⟨hc.1, hc.2, ?_, ?_⟩
    · intro hmode
      rcases hctx with h | h | h
      · exact absurd h.1 hA
      · exact h.2.2
      · rcases hmode with h2 | h2
        · rw [h.2.2, h2]
        · exact absurd h2.1 h.2.1
    have hsw : BxDocumentNext charSigned mallocOk2
        { length := doc.length, content := doc.content, head := doc.head + 1, context := ctx }
        = BxDocumentNext_switch charSigned
        { length := doc.length, content := doc.content, head := doc.head + 1,
          context := ctx } := by
      simp [BxDocumentNext, hc.1, hc.2]
    rw [hsw, BxDocumentNext_switch_status]
    simp only
    split_ifs with h
    · simp [h]
    · simp [h]

/-- Witness of C8 (amended): on the buffer `0x7F 0x7F` both calls return
`BX_STATUS_BAD_DOCUMENT`. -/
theorem C8_after_bad_document_witness :
    (BxDocumentNext false true badThenBadDoc).status = BX_STATUS_BAD_DOCUMENT ∧
    (BxDocumentNext false true badThenBadDoc).doc.head = 1 ∧
    (BxDocumentNext false true (BxDocumentNext false true badThenBadDoc).doc).status
      ≠ BX_STATUS_SUCCESS := by
  have hb : (BxDocumentNext false true badThenBadDoc).status = BX_STATUS_BAD_DOCUMENT := by
    simp +decide [BxDocumentNext, BxDocumentNext_switch, BxDocumentLoadFromMemory,
      badThenBadDoc, memOf, charValue]
  have h := C8_after_bad_document false true true badThenBadDoc hb
  refine ⟨hb, h.1, (h.2.2 (by decide)).2.2.2.2 ?_⟩
  simp +decide [badThenBadDoc, BxDocumentLoadFromMemory, memOf, charValue]

/-- C9. Resume misuse.  With context `BX_CONTEXT_NONE`: if the cursor is not 0,
`BxDocumentNext` returns `BX_STATUS_FAILURE`, reads no byte, stores neither type
nor data and leaves the whole document (cursor, context, length, content)
unchanged; if the cursor is 0, it does not return `BX_STATUS_FAILURE`, and it
is the `switch` run on the document whose context has been set to
`BX_CONTEXT_OUTERMOST`, so the context after the call is Outermost or
Attributes. -/
theorem C9_resume_misuse (charSigned mallocOk : Bool) (doc : BxDocument)
    (hctx : doc.context = BX_CONTEXT_NONE) :
    (doc.head ≠ 0 →
      (BxDocumentNext charSigned mallocOk doc).status = BX_STATUS_FAILURE ∧
      (BxDocumentNext charSigned mallocOk doc).reads = [] ∧
      (BxDocumentNext charSigned mallocOk doc).type = none ∧
      (BxDocumentNext charSigned mallocOk doc).data = none ∧
      (BxDocumentNext charSigned mallocOk doc).doc = doc) ∧
    (doc.head = 0 →
      (BxDocumentNext charSigned mallocOk doc).status ≠ BX_STATUS_FAILURE ∧
      BxDocumentNext charSigned mallocOk doc =
        BxDocumentNext_switch charSigned { doc with context := BX_CONTEXT_OUTERMOST } ∧
      ((BxDocumentNext charSigned mallocOk doc).doc.context = BX_CONTEXT_OUTERMOST ∨
       (BxDocumentNext charSigned mallocOk doc).doc.context = BX_CONTEXT_ATTRIBS)) := by
  constructor
  · intro h0
    simp [BxDocumentNext, hctx, h0]
  · intro h0
    have hE : BxDocumentNext charSigned mallocOk doc =
        BxDocumentNext_switch charSigned { doc with context := BX_CONTEXT_OUTERMOST } := by
      simp [BxDocumentNext, hctx, h0]
    rw [hE]
    refine ⟨?_, rfl, BxDocumentNext_switch_context charSigned _⟩
    rw [BxDocumentNext_switch_status]
    split_ifs <;> decide

/-- Witness of C9: context None with the cursor at 2 is refused without a read,
and the freshly loaded buffer `0xFF 0x7F` is not refused with
`BX_STATUS_FAILURE`. -/
theorem C9_resume_misuse_witness :
    ((BxDocumentNext false true resumedDoc).status = BX_STATUS_FAILURE ∧
      (BxDocumentNext false true resumedDoc).reads = [] ∧
      (BxDocumentNext false true resumedDoc).type = none ∧
      (BxDocumentNext false true resumedDoc).data = none ∧
      (BxDocumentNext false true resumedDoc).doc = resumedDoc) ∧
    (BxDocumentNext false true eofThenJunkDoc).status ≠ BX_STATUS_FAILURE :=
  ⟨(C9_resume_misuse false true resumedDoc rfl).1 (by decide),
   ((C9_resume_misuse false true eofThenJunkDoc rfl).2 rfl).1⟩

/-- C10 (failing input).  On the truncated buffer `0x03 "hi"` of declared length
3 the first call reads the offsets 0, 1, 2 and 3: the loop of
`BxDocumentReadString` evaluates `content[3]`, one past the declared length,
before it tests `head < length`.  This holds for either signedness of plain
`char`. -/
theorem C10_truncated_string_reads_past_length :
    (truncatedDoc 65).length = 3 ∧ (truncatedDoc 65).head ≤ (truncatedDoc 65).length ∧
    (BxDocumentNext false true (truncatedDoc 65)).reads = [0, 1, 2, 3] ∧
    (BxDocumentNext true true (truncatedDoc 65)).reads = [0, 1, 2, 3] ∧
    (∃ i, i ∈ (BxDocumentNext false true (truncatedDoc 65)).reads ∧
      (truncatedDoc 65).length ≤ i) := by
  have h : (BxDocumentNext false true (truncatedDoc 65)).reads = [0, 1, 2, 3] := by
    simp +decide [BxDocumentNext, BxDocumentNext_switch, BxDocumentReadString,
      BxDocumentReadString_loop, BxDocumentLoadFromMemory, truncatedDoc, memOf, charValue]
  refine ⟨rfl, by decide, h, ?_, 3, ?_, by decide⟩
  · simp +decide [BxDocumentNext, BxDocumentNext_switch, BxDocumentReadString,
      BxDocumentReadString_loop, BxDocumentLoadFromMemory, truncatedDoc, memOf, charValue]
  · rw [h]
    decide

/-- C11 (as stated, refuted).  On the one-byte buffer `0x7F` the bound
`cursor ≤ length` holds after loading and after the first call (cursor 1), and
the second call, which reads its tag byte at offset 1, leaves the cursor at 2,
above the length 1. -/
theorem C11_cursor_bound_counterexample :
    oneBadByteDoc.head ≤ oneBadByteDoc.length ∧
    (BxDocumentNext false true oneBadByteDoc).doc.head
      ≤ (BxDocumentNext false true oneBadByteDoc).doc.length ∧
    (BxDocumentNext false true (BxDocumentNext false true oneBadByteDoc).doc).doc.head = 2 ∧
    (BxDocumentNext false true (BxDocumentNext false true oneBadByteDoc).doc).doc.length = 1 ∧
    ¬ ((BxDocumentNext false true (BxDocumentNext false true oneBadByteDoc).doc).doc.head
      ≤ (BxDocumentNext false true (BxDocumentNext false true oneBadByteDoc).doc).doc.length) := by
  simp +decide [BxDocumentNext, BxDocumentNext_switch, BxDocumentLoadFromMemory, oneBadByteDoc,
    memOf, charValue]

/-- C11 (amended).  Cursor bound.  The bound `cursor ≤ length` holds for the
state produced by `BxDocumentLoadFromMemory`, and a `BxDocumentNext` call, in
any mode and whatever its status, preserves it when every offset the call
reads is below `length`. -/
theorem C11_cursor_bound (charSigned mallocOk : Bool) (length : Nat) (content : Nat → Byte)
    (doc : BxDocument) :
    (BxDocumentLoadFromMemory length content).2.head
      ≤ (BxDocumentLoadFromMemory length content).2.length ∧
    (doc.head ≤ doc.length →
      (∀ i ∈ (BxDocumentNext charSigned mallocOk doc).reads, i < doc.length) →
      (BxDocumentNext charSigned mallocOk doc).doc.head
        ≤ (BxDocumentNext charSigned mallocOk doc).doc.length) := by
  refine ⟨Nat.zero_le _, ?_⟩
  intro hle hreads
  rw [(BxDocumentNext_frame charSigned mallocOk doc).1]
  rcases BxDocumentNext_head_reads charSigned mallocOk doc with ⟨-, h⟩ | ⟨i, hi, h⟩
  · rw [h]; exact hle
  · rw [h]
    exact hreads i hi

/-- Witness of C11 (amended): the first call on the buffer `0x03 "hi" 0x00 0xFF`
reads the offsets 0 to 3 and leaves the cursor at 4, within the length 5. -/
theorem C11_cursor_bound_witness :
    (BxDocumentNext false true textDoc).reads = [0, 1, 2, 3] ∧
    (BxDocumentNext false true textDoc).doc.head
      ≤ (BxDocumentNext false true textDoc).doc.length := by
  have hr : (BxDocumentNext false true textDoc).reads = [0, 1, 2, 3] := by
    simp +decide [BxDocumentNext, BxDocumentNext_switch, BxDocumentReadString,
      BxDocumentReadString_loop, BxDocumentLoadFromMemory, textDoc, memOf, charValue]
  refine ⟨hr, (C11_cursor_bound false true 5 (memOf [3, 104, 105, 0, 255] 0) textDoc).2
    (by decide) ?_⟩
  rw [hr]
  decide

/-- C12. Cursor monotonicity.  A `BxDocumentNext` call that returns
`BX_STATUS_SUCCESS` leaves the cursor strictly greater than before, and no call,
whatever its status, decreases the cursor. -/
theorem C12_cursor_monotone (charSigned mallocOk : Bool) (doc : BxDocument) :
    ((BxDocumentNext charSigned mallocOk doc).status = BX_STATUS_SUCCESS →
      doc.head < (BxDocumentNext charSigned mallocOk doc).doc.head) ∧
    doc.head ≤ (BxDocumentNext charSigned mallocOk doc).doc.head := by
  obtain ⟨h1, -, h3⟩ := BxDocumentNext_head charSigned mallocOk doc
  refine ⟨fun hs => h3 ?_, h1⟩
  rw [hs]
  decide

/-- Witness of C12: the first call on the buffer `0x03 "hi" 0x00 0xFF` succeeds
and moves the cursor from 0 to a greater offset. -/
theorem C12_cursor_monotone_witness :
    (BxDocumentNext false true textDoc).status = BX_STATUS_SUCCESS ∧
    textDoc.head < (BxDocumentNext false true textDoc).doc.head := by
  have hs : (BxDocumentNext false true textDoc).status = BX_STATUS_SUCCESS := by
    simp +decide [BxDocumentNext, BxDocumentNext_switch, BxDocumentLoadFromMemory, textDoc,
      memOf, charValue]
  exact ⟨hs, (C12_cursor_monotone false true textDoc).1 hs⟩

/-- C13. Legal mode transitions.  For a session whose context is None, Outermost
or Attributes, the contexts before and after a `BxDocumentNext` call are equal,
or None then Outermost, or Outermost then Attributes, or Attributes then
Outermost, or None then Attributes for a call at cursor 0 that is the `switch`
run from Outermost.  A context other than Attributes is followed by Attributes
exactly when the call returns an OpenTag token; Attributes is followed by
Outermost exactly when the call returns AttributeEnd; and a context that is None
after the call was None before it, the call having changed nothing. -/
theorem C13_mode_transitions (charSigned mallocOk : Bool) (doc : BxDocument)
    (hv : doc.context = BX_CONTEXT_NONE ∨ doc.context = BX_CONTEXT_OUTERMOST ∨
      doc.context = BX_CONTEXT_ATTRIBS) :
    ((BxDocumentNext charSigned mallocOk doc).doc.context = doc.context ∨
     (doc.context = BX_CONTEXT_NONE ∧
        (BxDocumentNext charSigned mallocOk doc).doc.context = BX_CONTEXT_OUTERMOST) ∨
     (doc.context = BX_CONTEXT_OUTERMOST ∧
        (BxDocumentNext charSigned mallocOk doc).doc.context = BX_CONTEXT_ATTRIBS) ∨
     (doc.context = BX_CONTEXT_ATTRIBS ∧
        (BxDocumentNext charSigned mallocOk doc).doc.context = BX_CONTEXT_OUTERMOST) ∨
     (doc.context = BX_CONTEXT_NONE ∧ doc.head = 0 ∧
        (BxDocumentNext charSigned mallocOk doc).doc.context = BX_CONTEXT_ATTRIBS ∧
        BxDocumentNext charSigned mallocOk doc =
          BxDocumentNext_switch charSigned { doc with context := BX_CONTEXT_OUTERMOST })) ∧
    ((doc.context ≠ BX_CONTEXT_ATTRIBS ∧
        (BxDocumentNext charSigned mallocOk doc).doc.context = BX_CONTEXT_ATTRIBS) ↔
      ((BxDocumentNext charSigned mallocOk doc).status = BX_STATUS_SUCCESS ∧
        (BxDocumentNext charSigned mallocOk doc).type = some BX_TYPE_TAG)) ∧
    ((doc.context = BX_CONTEXT_ATTRIBS ∧
        (BxDocumentNext charSigned mallocOk doc).doc.context = BX_CONTEXT_OUTERMOST) ↔
      ((BxDocumentNext charSigned mallocOk doc).status = BX_STATUS_SUCCESS ∧
        (BxDocumentNext charSigned mallocOk doc).type = some BX_TYPE_ATTRIB_END)) ∧
    ((BxDocumentNext charSigned mallocOk doc).doc.context = BX_CONTEXT_NONE →
      doc.context = BX_CONTEXT_NONE ∧ (BxDocumentNext charSigned mallocOk doc).doc = doc) := by
  obtain ⟨hmA, hmO⟩ := BxDocumentNext_mode charSigned mallocOk doc
  by_cases hA : doc.context = BX_CONTEXT_ATTRIBS
  · have hm := hmA hA
    refine ⟨?_, ?_, ?_, ?_⟩
    · rcases hm with h | h | h
      · exact Or.inr (Or.inr (Or.inr (Or.inl ⟨hA, h.2.2⟩)))
      · left; rw [h.2.2, hA]
      · left; rw [h.2.2, hA]
    · constructor
      · intro h; exact absurd hA h.1
      · intro h
        exfalso
        rcases hm with h2 | h2 | h2
        · rw [h2.2.1] at h; exact absurd h.2 (by decide)
        · rw [h2.2.1] at h; exact absurd h.2 (by decide)
        · exact h2.1 h.1
    · constructor
      · intro h
        rcases hm with h2 | h2 | h2
        · exact ⟨h2.1, h2.2.1⟩
        · rw [h2.2.2] at h; exact absurd h.2 (by decide)
        · rw [h2.2.2] at h; exact absurd h.2 (by decide)
      · intro h
        rcases hm with h2 | h2 | h2
        · exact ⟨hA, h2.2.2⟩
        · rw [h2.2.1] at h; exact absurd h.2 (by decide)
        · exact absurd h.1 h2.1
    · intro h
      exfalso
      rcases hm with h2 | h2 | h2
      · rw [h2.2.2] at h; exact absurd h (by decide)
      · rw [h2.2.2] at h; exact absurd h (by decide)
      · rw [h2.2.2] at h; exact absurd h (by decide)
  · have hm := hmO hA
    refine ⟨?_, ?_, ?_, ?_⟩
    · rcases hm with h | h
      · rcases hv with hN | hO | hAA
        · right; right; right; right
          have h0 := h.2.2.2 hN
          refine ⟨hN, h0, h.2.2.1, ?_⟩
          simp [BxDocumentNext, hN, h0]
        · exact Or.inr (Or.inr (Or.inl ⟨hO, h.2.2.1⟩))
        · exact absurd hAA hA
      · rcases h.2.2 with h2 | h2
        · exact Or.inl h2.1
        · exact Or.inr (Or.inl ⟨h2.1, h2.2.2⟩)
    · constructor
      · intro h
        rcases hm with h2 | h2
        · exact ⟨h2.1, h2.2.1⟩
        · exfalso
          rcases h2.2.2 with h3 | h3
          · rw [h3.1] at h; exact hA h.2
          · rw [h3.2.2] at h; exact absurd h.2 (by decide)
      · intro h
        rcases hm with h2 | h2
        · exact ⟨hA, h2.2.2.1⟩
        · exfalso
          rcases h2.1 h.1 with h3 | h3 | h3 | h3 <;> rw [h3] at h <;>
            exact absurd h.2 (by decide)
    · constructor
      · intro h; exact absurd h.1 hA
      · intro h
        exfalso
        rcases hm with h2 | h2
        · rw [h2.2.1] at h; exact absurd h.2 (by decide)
        · rcases h2.1 h.1 with h3 | h3 | h3 | h3 <;> rw [h3] at h <;>
            exact absurd h.2 (by decide)
    · intro h
      rcases hm with h2 | h2
      · rw [h2.2.2.1] at h; exact absurd h (by decide)
      · rcases h2.2.2 with h3 | h3
        · rcases h3.2 with h4 | h4
          · exact ⟨by rw [← h3.1]; exact h, h4⟩
          · rw [h3.1] at h; exact absurd h h4
        · rw [h3.2.2] at h; exact absurd h (by decide)

/-- Witness of C13: the first call on the freshly loaded buffer `0x01 "x" 0x00`
returns OpenTag and takes the context from None to Attributes. -/
theorem C13_mode_transitions_witness :
    openTagDoc.context = BX_CONTEXT_NONE ∧
    (BxDocumentNext false true openTagDoc).status = BX_STATUS_SUCCESS ∧
    (BxDocumentNext false true openTagDoc).type = some BX_TYPE_TAG ∧
    (BxDocumentNext false true openTagDoc).doc.context = BX_CONTEXT_ATTRIBS := by
  have hs : (BxDocumentNext false true openTagDoc).status = BX_STATUS_SUCCESS ∧
      (BxDocumentNext false true openTagDoc).type = some BX_TYPE_TAG := by
    simp +decide [BxDocumentNext, BxDocumentNext_switch, BxDocumentLoadFromMemory, openTagDoc,
      memOf, charValue]
  exact ⟨rfl, hs.1, hs.2,
    ((C13_mode_transitions false true openTagDoc (Or.inl rfl)).2.1.2 hs).2⟩

/-- C14. Mode invariant on token traces.  Take any buffer and any sequence of
`BxDocumentNext` calls from the state produced by `BxDocumentLoadFromMemory`
(with any allocation outcomes), and the tokens returned by the successful calls
among them, in order.  Every Attribute or AttributeEnd token has an OpenTag
token before it with only Attribute tokens between the two; and the token next
after an OpenTag or an Attribute is Attribute or AttributeEnd. -/
theorem C14_token_trace (charSigned : Bool) (length : Nat) (content : Nat → Byte)
    (ms : List Bool) :
    (∀ (j : Nat) (t : Int),
      (tokenTypes (BxDocumentNext_calls charSigned ms
        (BxDocumentLoadFromMemory length content).2))[j]? = some t →
      (t = BX_TYPE_ATTRIB ∨ t = BX_TYPE_ATTRIB_END) →
      ∃ i, i < j ∧
        (tokenTypes (BxDocumentNext_calls charSigned ms
          (BxDocumentLoadFromMemory length content).2))[i]? = some BX_TYPE_TAG ∧
        ∀ k, i < k → k < j →
          (tokenTypes (BxDocumentNext_calls charSigned ms
            (BxDocumentLoadFromMemory length content).2))[k]? = some BX_TYPE_ATTRIB) ∧
    (∀ (j : Nat) (t u : Int),
      (tokenTypes (BxDocumentNext_calls charSigned ms
        (BxDocumentLoadFromMemory length content).2))[j]? = some t →
      (t = BX_TYPE_TAG ∨ t = BX_TYPE_ATTRIB) →
      (tokenTypes (BxDocumentNext_calls charSigned ms
        (BxDocumentLoadFromMemory length content).2))[j + 1]? = some u →
      (u = BX_TYPE_ATTRIB ∨ u = BX_TYPE_ATTRIB_END)) := by
  have htr := modeTrace_calls charSigned ms (BxDocumentLoadFromMemory length content).2 none
    (by simp +decide [BxDocumentLoadFromMemory, OpensAttribs])
  constructor
  · intro j t hj ht
    rcases modeTrace_preceded _ none htr j t hj ht with h | h
    · exact h
    · exact absurd h.1 (by simp [OpensAttribs])
  · intro j t u hj ht hu
    exact modeTrace_followed _ none htr j t u hj ht hu

/-- Witness of C14: two calls on the buffer `0x01 "x" 0x00 0x00` return OpenTag
then AttributeEnd; the AttributeEnd at position 1 has the OpenTag at position 0
before it, and it is what follows the OpenTag. -/
theorem C14_token_trace_witness :
    tokenTypes (BxDocumentNext_calls false [true, true] emptyTagDoc)
      = [BX_TYPE_TAG, BX_TYPE_ATTRIB_END] ∧
    (∃ i, i < 1 ∧
      (tokenTypes (BxDocumentNext_calls false [true, true] emptyTagDoc))[i]?
        = some BX_TYPE_TAG ∧
      ∀ k, i < k → k < 1 →
        (tokenTypes (BxDocumentNext_calls false [true, true] emptyTagDoc))[k]?
          = some BX_TYPE_ATTRIB) := by
  have hts : tokenTypes (BxDocumentNext_calls false [true, true] emptyTagDoc)
      = [BX_TYPE_TAG, BX_TYPE_ATTRIB_END] := by
    simp +decide [tokenTypes, BxOut.token, BxDocumentNext_calls, BxDocumentNext,
      BxDocumentNext_switch, BxDocumentNextAttr, BxDocumentReadString,
      BxDocumentReadString_loop, BxDocumentLoadFromMemory, emptyTagDoc, memOf, charValue]
  refine ⟨hts, (C14_token_trace false 4 (memOf [1, 120, 0, 0] 0) [true, true]).1 1
    BX_TYPE_ATTRIB_END ?_ (Or.inr rfl)⟩
  show (tokenTypes (BxDocumentNext_calls false [true, true] emptyTagDoc))[1]? = _
  rw [hts]
  rfl

/-- C15. Truncated string.  When the cursor `s` is at most `length` and no
offset in `[s, length)` holds a NUL, then, whatever byte is at offset `length`,
`BxDocumentReadString` returns the pointer to offset `s`, its scan stops at
offset `length` exactly (having read the offsets `s .. length`), the view it
denotes within the declared length is the bytes of `[s, length)`, and the
cursor is left at `length + 1`. -/
theorem C15_truncated_string (charSigned : Bool) (doc : BxDocument)
    (hle : doc.head ≤ doc.length)
    (hrun : ∀ i, doc.head ≤ i → i < doc.length → doc.content i ≠ 0) :
    (BxDocumentReadString charSigned doc).string = doc.head ∧
    (BxDocumentReadString_loop charSigned doc.length doc.content doc.head).1 = doc.length ∧
    (BxDocumentReadString charSigned doc).reads
      = List.range' doc.head (doc.length - doc.head + 1) ∧
    cString doc.content doc.head doc.length
      = (List.range' doc.head (doc.length - doc.head)).map doc.content ∧
    (BxDocumentReadString charSigned doc).doc.head = doc.length + 1 ∧
    (BxDocumentReadString charSigned doc).doc.length = doc.length ∧
    (BxDocumentReadString charSigned doc).doc.content = doc.content ∧
    (BxDocumentReadString charSigned doc).doc.context = doc.context := by
  have hloop := BxDocumentReadString_loop_run charSigned doc.length doc.content
    (doc.length - doc.head) doc.head (fun i hi => hrun _ (by omega) (by omega)) (by omega)
    (Or.inr (by omega))
  rw [show doc.head + (doc.length - doc.head) = doc.length by omega] at hloop
  refine ⟨rfl, by rw [hloop], ?_, cString_truncated doc.content doc.length _ doc.head rfl hrun,
    ?_, rfl, rfl, rfl⟩
  · simp [BxDocumentReadString, hloop]
  · simp [BxDocumentReadString, hloop]

/-- Witness of C15: the string `"hi"` of the truncated buffer `0x03 "hi"`, once
with a NUL and once with the byte `0x41` at offset 3. -/
theorem C15_truncated_string_witness :
    (BxDocumentReadString false (truncatedStringDoc 0)).doc.head = 4 ∧
    cString (truncatedStringDoc 0).content 1 3 = [104, 105] ∧
    (BxDocumentReadString false (truncatedStringDoc 65)).doc.head = 4 ∧
    cString (truncatedStringDoc 65).content 1 3 = [104, 105] ∧
    (BxDocumentReadString false (truncatedStringDoc 65)).reads = [1, 2, 3] := by
  have h0 := C15_truncated_string false (truncatedStringDoc 0) (by decide)
    (by intro i h1 h2
        have h3 : i < 3 := h2
        have h4 : 1 ≤ i := h1
        interval_cases i <;> decide)
  have h65 := C15_truncated_string false (truncatedStringDoc 65) (by decide)
    (by intro i h1 h2
        have h3 : i < 3 := h2
        have h4 : 1 ≤ i := h1
        interval_cases i <;> decide)
  exact ⟨h0.2.2.2.2.1, h0.2.2.2.1, h65.2.2.2.2.1, h65.2.2.2.1, h65.2.2.1⟩

/-- C16. Finite token sequence.  The loop of `BxDocumentReadString` is a total
function of the buffer and the cursor: it runs `e - cursor` iterations, where
`e` is the offset at which it stops, at most `length - cursor` of them, and none
when the cursor is not below `length`; it evaluates its condition once more
than it iterates.  In any sequence of `BxDocumentNext` calls from the state
produced by `BxDocumentLoadFromMemory`, the cursors at the start of the calls are
strictly increasing, so at most `length` of the calls start with the cursor,
hence the tag byte, inside the buffer. -/
theorem C16_finite (charSigned : Bool) (length : Nat) (content : Nat → Byte) (head : Nat)
    (ms : List Bool) :
    (head ≤ (BxDocumentReadString_loop charSigned length content head).1 ∧
     (BxDocumentReadString_loop charSigned length content head).1 - head ≤ length - head ∧
     (length ≤ head → (BxDocumentReadString_loop charSigned length content head).1 = head) ∧
     (BxDocumentReadString_loop charSigned length content head).2.length
       = (BxDocumentReadString_loop charSigned length content head).1 - head + 1) ∧
    List.Pairwise (fun a b => a < b)
      (BxDocumentNext_cursors charSigned ms (BxDocumentLoadFromMemory length content).2) ∧
    (BxDocumentNext_cursors charSigned ms
      (BxDocumentLoadFromMemory length content).2).countP (fun c => decide (c < length))
      ≤ length := by
  obtain ⟨h1, h2, -, -, h5⟩ :=
    BxDocumentReadString_loop_spec charSigned length content _ head rfl
  obtain ⟨-, c2, c3⟩ := cursors_increasing charSigned length ms
    (BxDocumentLoadFromMemory length content).2 (fun _ => rfl)
  refine ⟨⟨h1, h2, fun h => by omega, ?_⟩, c2, ?_⟩
  · rw [h5]
    simp
  · have : (BxDocumentLoadFromMemory length content).2.head = 0 := rfl
    rw [this] at c3
    simpa using c3

/-- C17. Buffer immutability.  A `BxDocumentNext` call, in any mode and whatever
its status, leaves `length` and `content` unchanged: the document after the call
is the document before it with a new cursor and a new context.
`BxDocumentLoadFromMemory` returns `BX_STATUS_SUCCESS` and the document holding
the given length and content, cursor 0 and context `BX_CONTEXT_NONE`. -/
theorem C17_frame (charSigned mallocOk : Bool) (doc : BxDocument) (length : Nat)
    (content : Nat → Byte) :
    (BxDocumentNext charSigned mallocOk doc).doc.length = doc.length ∧
    (BxDocumentNext charSigned mallocOk doc).doc.content = doc.content ∧
    (BxDocumentNext charSigned mallocOk doc).doc =
      { doc with head := (BxDocumentNext charSigned mallocOk doc).doc.head,
                 context := (BxDocumentNext charSigned mallocOk doc).doc.context } ∧
    (BxDocumentLoadFromMemory length content).1 = BX_STATUS_SUCCESS ∧
    (BxDocumentLoadFromMemory length content).2 =
      { length := length, content := content, head := 0, context := BX_CONTEXT_NONE } := by
  obtain ⟨h1, h2⟩ := BxDocumentNext_frame charSigned mallocOk doc
  refine ⟨h1, h2, ?_, rfl, rfl⟩
  cases hr : (BxDocumentNext charSigned mallocOk doc).doc with
  | mk l c h x =>
    rw [hr] at h1 h2
    simp only at h1 h2
    rw [h1, h2]

/-- C18. Effect of a malformed-byte error on the state.  When `BxDocumentNext`
returns `BX_STATUS_BAD_DOCUMENT`, the cursor has advanced by exactly one, only
the rejected byte was read, the context is the one the byte was decoded under
(Attributes stays Attributes; Outermost, or None at cursor 0, is Outermost
after the call), neither type nor data was stored, and the document after the
call differs from the document before it in cursor and context only: the error
is not recorded. -/
theorem C18_bad_document_effect (charSigned mallocOk : Bool) (doc : BxDocument)
    (hb : (BxDocumentNext charSigned mallocOk doc).status = BX_STATUS_BAD_DOCUMENT) :
    (BxDocumentNext charSigned mallocOk doc).doc.head = doc.head + 1 ∧
    (BxDocumentNext charSigned mallocOk doc).reads = [doc.head] ∧
    (doc.context = BX_CONTEXT_ATTRIBS →
      (BxDocumentNext charSigned mallocOk doc).doc.context = BX_CONTEXT_ATTRIBS) ∧
    (OutermostMode doc →
      (BxDocumentNext charSigned mallocOk doc).doc.context = BX_CONTEXT_OUTERMOST) ∧
    (BxDocumentNext charSigned mallocOk doc).type = none ∧
    (BxDocumentNext charSigned mallocOk doc).data = none ∧
    (BxDocumentNext charSigned mallocOk doc).doc =
      { doc with head := doc.head + 1,
                 context := (BxDocumentNext charSigned mallocOk doc).doc.context } := by
  obtain ⟨ctx, hctx, hE⟩ := bad_document_returned charSigned mallocOk doc hb
  rw [hE]
  refine ⟨rfl, rfl, ?_, ?_, rfl, rfl, rfl⟩
  · intro hA
    rcases hctx with h | h | h
    · exact h.2
    · rw [h.1] at hA; exact absurd hA (by decide)
    · exact absurd hA h.1
  · intro hO
    rcases hctx with h | h | h
    · rcases hO with h2 | h2
      · rw [h.1] at h2; exact absurd h2 (by decide)
      · rw [h.1] at h2; exact absurd h2.1 (by decide)
    · exact h.2.2
    · rcases hO with h2 | h2
      · show ctx = BX_CONTEXT_OUTERMOST
        rw [h.2.2, h2]
      · exact absurd h2.1 h.2.1

/-- Witness of C18: the byte `0x02` met in Attributes mode is rejected; the
cursor moves from 0 to 1, the context stays Attributes and nothing is stored. -/
theorem C18_bad_document_effect_witness :
    (BxDocumentNext false true endTagInAttribsDoc).status = BX_STATUS_BAD_DOCUMENT ∧
    (BxDocumentNext false true endTagInAttribsDoc).doc.head = 1 ∧
    (BxDocumentNext false true endTagInAttribsDoc).reads = [0] ∧
    (BxDocumentNext false true endTagInAttribsDoc).doc.context = BX_CONTEXT_ATTRIBS ∧
    (BxDocumentNext false true endTagInAttribsDoc).type = none ∧
    (BxDocumentNext false true endTagInAttribsDoc).data = none := by
  have hb : (BxDocumentNext false true endTagInAttribsDoc).status = BX_STATUS_BAD_DOCUMENT := by
    simp +decide [BxDocumentNext, BxDocumentNextAttr, endTagInAttribsDoc, memOf, charValue]
  obtain ⟨h1, h2, h3, -, h5, h6, -⟩ := C18_bad_document_effect false true endTagInAttribsDoc hb
  exact ⟨hb, h1, h2, h3 rfl, h5, h6⟩

/-- C19 (as stated, refuted).  Two calls on one and the same session, the
attribute record `0x01 "k" 0x00 "v" 0x00` in Attributes mode: the first, whose
allocation succeeds, returns `BX_STATUS_SUCCESS` and leaves the cursor at 5,
inside the buffer; the second, whose allocation fails, returns
`BX_STATUS_FAILURE`, stores no data and leaves the cursor at 1. -/
theorem C19_locality_counterexample :
    (BxDocumentNext false true attribRecordDoc).status = BX_STATUS_SUCCESS ∧
    (BxDocumentNext false true attribRecordDoc).doc.head = 5 ∧
    (BxDocumentNext false true attribRecordDoc).doc.head ≤ attribRecordDoc.length ∧
    (BxDocumentNext false false attribRecordDoc).status = BX_STATUS_FAILURE ∧
    (BxDocumentNext false false attribRecordDoc).status
      ≠ (BxDocumentNext false true attribRecordDoc).status ∧
    (BxDocumentNext false false attribRecordDoc).data
      ≠ (BxDocumentNext false true attribRecordDoc).data ∧
    (BxDocumentNext false false attribRecordDoc).doc.head = 1 := by
  simp +decide [BxDocumentNext, BxDocumentNextAttr, BxDocumentReadString,
    BxDocumentReadString_loop, attribRecordDoc, memOf, charValue]

/-- C19 (amended).  Locality of decoding.  Take two sessions with the same
length, cursor `c` and context, and a call on the first that returns
`BX_STATUS_SUCCESS` and leaves its cursor `c'` at most `length`.  If the two
buffers agree on every offset of `[c, c')` and, in Attributes mode, the two
calls have the same allocation outcome, then the call on the second session
returns the same status, type, data pointers, string views, cursor and context,
and reads the same offsets. -/
theorem C19_locality (charSigned mallocOk mallocOk2 : Bool) (doc1 doc2 : BxDocument)
    (hlen : doc2.length = doc1.length) (hhead : doc2.head = doc1.head)
    (hctx : doc2.context = doc1.context)
    (hs : (BxDocumentNext charSigned mallocOk doc1).status = BX_STATUS_SUCCESS)
    (hin : (BxDocumentNext charSigned mallocOk doc1).doc.head ≤ doc1.length)
    (hagree : ∀ i, doc1.head ≤ i → i < (BxDocumentNext charSigned mallocOk doc1).doc.head →
      doc1.content i = doc2.content i)
    (hm : doc1.context = BX_CONTEXT_ATTRIBS → mallocOk2 = mallocOk) :
    (BxDocumentNext charSigned mallocOk2 doc2).status
      = (BxDocumentNext charSigned mallocOk doc1).status ∧
    (BxDocumentNext charSigned mallocOk2 doc2).type
      = (BxDocumentNext charSigned mallocOk doc1).type ∧
    (BxDocumentNext charSigned mallocOk2 doc2).data
      = (BxDocumentNext charSigned mallocOk doc1).data ∧
    (BxDocumentNext charSigned mallocOk2 doc2).event
      = (BxDocumentNext charSigned mallocOk doc1).event ∧
    (BxDocumentNext charSigned mallocOk2 doc2).doc.head
      = (BxDocumentNext charSigned mallocOk doc1).doc.head ∧
    (BxDocumentNext charSigned mallocOk2 doc2).doc.context
      = (BxDocumentNext charSigned mallocOk doc1).doc.context ∧
    (BxDocumentNext charSigned mallocOk2 doc2).reads
      = (BxDocumentNext charSigned mallocOk doc1).reads := by
  obtain ⟨len, c1, head, ctx1⟩ := doc1
  obtain ⟨len2, c2, head2, ctx2⟩ := doc2
  simp only at hlen hhead hctx hagree hin hm
  subst hlen hhead hctx
  rcases BxDocumentNext_cases charSigned mallocOk ⟨len2, c1, head2, ctx2⟩ with
    ⟨hA, hE⟩ | ⟨-, -, hE⟩ | ⟨ctx, hcA, hcN, hdA, hrel, hE⟩
  · -- Attributes mode
    simp only at hA
    subst hA
    have hmm := hm rfl
    subst hmm
    rw [BxDocumentNext_of_attribs _ _ _ rfl] at hs hin hagree ⊢
    rw [BxDocumentNext_of_attribs _ _ _ rfl]
    rcases BxDocumentNextAttr_cases charSigned mallocOk2 ⟨len2, c1, head2, BX_CONTEXT_ATTRIBS⟩
      with ⟨hb, hR⟩ | ⟨-, -, hR⟩ | ⟨e1, e2, hb, hmt, s1, s2, hR⟩ | ⟨-, -, hR⟩
    · rw [hR] at hagree ⊢
      simp only at hb hagree
      have hb2 : c2 head2 = 0 := by rw [← hagree head2 (Nat.le_refl _) (by omega)]; exact hb
      rcases BxDocumentNextAttr_cases charSigned mallocOk2
        ⟨len2, c2, head2, BX_CONTEXT_ATTRIBS⟩
        with ⟨-, hR2⟩ | ⟨h, -, -⟩ | ⟨_, _, h, -, -, -, -⟩ | ⟨h, -, -⟩
      · rw [hR2]
        simp [BxOut.event]
      · simp only at h; rw [hb2] at h; exact absurd h (by decide)
      · simp only at h; rw [hb2] at h; exact absurd h (by decide)
      · simp only at h; exact absurd hb2 h
    · rw [hR] at hs
      simp only at hs
      exact absurd hs (by decide)
    · rw [hR] at hagree hin ⊢
      simp only at hb hagree hin s1 s2
      have hs1 := s1.1
      have hs2 := s2.1
      have hb2 : c2 head2 = 1 := by rw [← hagree head2 (Nat.le_refl _) (by omega)]; exact hb
      have t1 := scanStops_congr c1 c2 len2 (head2 + 1) e1 s1 (by omega)
        (fun i h1 h2 => hagree i (by omega) (by omega))
      have t2 := scanStops_congr c1 c2 len2 (e1 + 1) e2 s2 (by omega)
        (fun i h1 h2 => hagree i (by omega) (by omega))
      have v1 := cString_congr_scan c1 c2 len2 (head2 + 1) e1 s1 (by omega)
        (fun i h1 h2 => hagree i (by omega) (by omega))
      have v2 := cString_congr_scan c1 c2 len2 (e1 + 1) e2 s2 (by omega)
        (fun i h1 h2 => hagree i (by omega) (by omega))
      rcases BxDocumentNextAttr_cases charSigned mallocOk2
        ⟨len2, c2, head2, BX_CONTEXT_ATTRIBS⟩
        with ⟨h, -⟩ | ⟨-, h, -⟩ | ⟨f1, f2, -, -, u1, u2, hR2⟩ | ⟨-, h, -⟩
      · simp only at h; rw [hb2] at h; exact absurd h (by decide)
      · rw [hmt] at h; exact absurd h (by decide)
      · simp only at u1 u2
        have hf1 : f1 = e1 := scanStops_unique c2 len2 (head2 + 1) f1 e1 u1 t1
        subst hf1
        have hf2 : f2 = e2 := scanStops_unique c2 len2 (f1 + 1) f2 e2 u2 t2
        subst hf2
        rw [hR2]
        simp [BxOut.event, v1, v2]
      · simp only at h; exact absurd hb2 h
    · rw [hR] at hs
      simp only at hs
      exact absurd hs (by decide)
  · rw [hE] at hs
    simp only at hs
    exact absurd hs (by decide)
  · -- the switch
    simp only at hdA hrel
    have hE2 : BxDocumentNext charSigned mallocOk2 ⟨len2, c2, head2, ctx2⟩
        = BxDocumentNext_switch charSigned ⟨len2, c2, head2, ctx⟩ := by
      rcases hrel with ⟨hN, h0, hc⟩ | ⟨hN, hc⟩
      · subst hN h0 hc
        simp [BxDocumentNext]
      · subst hc
        simp [BxDocumentNext, hdA, hN]
    rw [hE] at hs hin hagree ⊢
    rw [hE2]
    rcases BxDocumentNext_switch_cases charSigned ⟨len2, c1, head2, ctx⟩ with
      ⟨t, e, ht, hcv, s, hR⟩ | ⟨hcv, hR⟩ | ⟨-, hR⟩
    · rw [hR] at hagree hin ⊢
      simp only at hcv hagree hin s
      have hs1 := s.1
      have hb2 : c2 head2 = c1 head2 := (hagree head2 (Nat.le_refl _) (by omega)).symm
      have t1 := scanStops_congr c1 c2 len2 (head2 + 1) e s (by omega)
        (fun i h1 h2 => hagree i (by omega) (by omega))
      have v1 := cString_congr_scan c1 c2 len2 (head2 + 1) e s (by omega)
        (fun i h1 h2 => hagree i (by omega) (by omega))
      rcases BxDocumentNext_switch_cases charSigned ⟨len2, c2, head2, ctx⟩ with
        ⟨t', f, -, hcv2, u, hR2⟩ | ⟨hcv2, -⟩ | ⟨hcv2, -⟩
      · simp only at hcv2 u
        rw [hb2, hcv] at hcv2
        subst hcv2
        have hf : f = e := scanStops_unique c2 len2 (head2 + 1) f e u t1
        subst hf
        rw [hR2]
        refine ⟨rfl, rfl, rfl, ?_, rfl, rfl, rfl⟩
        rw [event_of_string _ t (head2 + 1) rfl rfl, event_of_string _ t (head2 + 1) rfl rfl]
        simp only
        rw [v1]
      · simp only at hcv2
        rw [hb2, hcv] at hcv2
        rcases ht with rfl | rfl | rfl | rfl <;> exact absurd hcv2 (by decide)
      · simp only at hcv2
        rw [hb2, hcv] at hcv2
        exact absurd (show t = 0 ∨ t = 1 ∨ t = 2 ∨ t = 3 ∨ t = 255 from by
          rcases ht with h | h | h | h
          · exact Or.inl h
          · exact Or.inr (Or.inl h)
          · exact Or.inr (Or.inr (Or.inl h))
          · exact Or.inr (Or.inr (Or.inr (Or.inl h)))) hcv2
    · rw [hR] at hagree ⊢
      simp only at hcv hagree
      have hb2 : c2 head2 = c1 head2 := (hagree head2 (Nat.le_refl _) (by omega)).symm
      have hcv2 : charValue charSigned (c2 head2) = 255 := by rw [hb2]; exact hcv
      rw [BxDocumentNext_switch_eof charSigned _ hcv2]
      simp [BxOut.event]
    · rw [hR] at hs
      simp only at hs
      exact absurd hs (by decide)

/-- Witness of C19 (amended): the buffers `0x03 "hi" 0x00 0xFF` and
`0x03 "hi" 0x00 0x7F` agree on the offsets 0 to 3 read by the first call, which
leaves the cursor at 4; the call on the second buffer returns the same Text
token, at the same offset and with the same cursor. -/
theorem C19_locality_witness :
    (BxDocumentNext false true textDoc).status = BX_STATUS_SUCCESS ∧
    (BxDocumentNext false true textDoc).doc.head = 4 ∧
    textDoc.content 4 ≠ textThenJunkDoc.content 4 ∧
    (BxDocumentNext false false textThenJunkDoc).status = BX_STATUS_SUCCESS ∧
    (BxDocumentNext false false textThenJunkDoc).type = some BX_TYPE_TEXT ∧
    (BxDocumentNext false false textThenJunkDoc).data = some (BxData.string 1) ∧
    (BxDocumentNext false false textThenJunkDoc).doc.head = 4 := by
  have h1 : (BxDocumentNext false true textDoc).status = BX_STATUS_SUCCESS ∧
      (BxDocumentNext false true textDoc).type = some BX_TYPE_TEXT ∧
      (BxDocumentNext false true textDoc).data = some (BxData.string 1) ∧
      (BxDocumentNext false true textDoc).doc.head = 4 := by
    simp +decide [BxDocumentNext, BxDocumentNext_switch, BxDocumentReadString,
      BxDocumentReadString_loop, BxDocumentLoadFromMemory, textDoc, memOf, charValue]
  obtain ⟨hs, ht, hd, hh⟩ := h1
  have h := C19_locality false true false textDoc textThenJunkDoc rfl rfl rfl hs
    (by rw [hh]; decide)
    (by
      intro i _ hi
      rw [hh] at hi
      interval_cases i <;> decide)
    (by intro hc; exact absurd hc (by decide))
  refine ⟨hs, hh, by decide, ?_, ?_, ?_, ?_⟩
  · rw [h.1, hs]
  · rw [h.2.1, ht]
  · rw [h.2.2.1, hd]
  · rw [h.2.2.2.2.1, hh]

end BinaryXML
